import Mathlib

/-!
Shallow embedding of the kinesin TCP reassembly core
(`kinesin-rdt/src/common/range_set.rs`, `kinesin-rdt/src/stream/inbound.rs`,
`parse-tcp/src/stream.rs`, `parse-tcp/src/connection.rs`,
`parse-tcp/src/flow_table.rs`) and proofs about it.

Conventions:
* `u64`/`u32`/`u16` values are `Nat`; wrapping 32-bit arithmetic is explicit
  (`% 2^32`), guarded subtractions are `Nat.sub` (noted where the Rust code
  guarantees no underflow), `saturating_sub` is `Nat.sub` itself.
* Panics (`panic!`, `unreachable!`, failed `assert!`/`expect`) are modelled by
  returning `none` from an `Option`-valued function.
* `BTreeMap<u64, u64>` is modelled as an association list sorted by key.
* `RingBuf<u8>` is modelled by its logical byte sequence (a `List Nat`), which
  is the contract the inbound stream code relies on.
-/

namespace Kinesin

/-- Value of `usize::MAX` on a 64-bit target. -/
def USIZE_MAX : Nat := 2 ^ 64 - 1

/-- Value of `isize::MAX` on a 64-bit target. -/
def ISIZE_MAX : Nat := 2 ^ 63 - 1

/-- Modulus of 32-bit arithmetic. -/
def U32_MOD : Nat := 2 ^ 32

/-- Wrapping 32-bit addition (`u32::wrapping_add`). -/
def wadd32 (a b : Nat) : Nat := (a + b) % U32_MOD

/-- Wrapping 32-bit subtraction (`u32::wrapping_sub`). -/
def wsub32 (a b : Nat) : Nat := (a + (U32_MOD - b % U32_MOD)) % U32_MOD

/-- Saturating 64-bit addition (`u64::saturating_add`). -/
def satAdd64 (a b : Nat) : Nat := min (a + b) (2 ^ 64 - 1)

/-! ## RangeSet (kinesin-rdt/src/common/range_set.rs)

The backing `BTreeMap<u64, u64>` (key = range start, value = range length) is
modelled as `List (Nat × Nat)` sorted strictly by key. -/

/-- Model of `self.map.range(..=x).next_back()`: the last entry with key ≤ `x`
of a key-sorted association list. -/
def lastLE : List (Nat × Nat) → Nat → Option (Nat × Nat)
  | [], _ => none
  | p :: rest, x =>
    if p.1 ≤ x then
      match lastLE rest x with
      | some q => some q
      | none => some p
    else lastLE rest x

/-- Model of `self.map.range(..=x)` (ascending). -/
def entriesLE (l : List (Nat × Nat)) (x : Nat) : List (Nat × Nat) :=
  l.filter (fun p => p.1 ≤ x)

/-- Model of `self.map.range(..x)` (ascending). -/
def entriesLT (l : List (Nat × Nat)) (x : Nat) : List (Nat × Nat) :=
  l.filter (fun p => p.1 < x)

/-- Model of `BTreeMap::insert` on a key-sorted association list: inserts at the
sorted position, replacing an entry with an equal key. -/
def mapInsert : List (Nat × Nat) → Nat → Nat → List (Nat × Nat)
  | [], k, v => [(k, v)]
  | (k0, v0) :: rest, k, v =>
    if k < k0 then (k, v) :: (k0, v0) :: rest
    else if k = k0 then (k, v) :: rest
    else (k0, v0) :: mapInsert rest k v

/-- Model of `BTreeMap::remove` (keys are unique in a map). -/
def mapRemove (l : List (Nat × Nat)) (k : Nat) : List (Nat × Nat) :=
  l.eraseP (fun p => p.1 == k)

/-- `RangeSet`: set of ranges backed by a map from start to length. -/
structure RangeSet where
  map : List (Nat × Nat)
  max_size : Nat
deriving Repr, DecidableEq

/-- `RangeSet::new`. -/
def RangeSet.new (max_size : Nat) : RangeSet := ⟨[], max_size⟩

/-- `RangeSet::unlimited` (`max_size = usize::MAX`). -/
def RangeSet.unlimited : RangeSet := RangeSet.new USIZE_MAX

/-- `RangeSet::has_value`. -/
def RangeSet.has_value (rs : RangeSet) (val : Nat) : Bool :=
  match lastLE rs.map val with
  | some (start, len) => decide (start + len > val)
  | none => false

/-- `RangeSet::has_range` for the range `[start, stop)`. -/
def RangeSet.has_range (rs : RangeSet) (start stop : Nat) : Bool :=
  match lastLE rs.map start with
  | some (s, len) => decide (s + len ≥ stop)
  | none => false

/-- `RangeSet::_direct_insert` for the range `[start, stop)`. -/
def RangeSet._direct_insert (rs : RangeSet) (start stop : Nat) : RangeSet :=
  { rs with map := mapInsert rs.map start (stop - start) }

/-- `RangeSet::_max_checked_insert`. -/
def RangeSet._max_checked_insert (rs : RangeSet) (start stop : Nat) : Bool × RangeSet :=
  if rs.map.length ≥ rs.max_size then (false, rs)
  else (true, rs._direct_insert start stop)

/-- Loop body of `RangeSet::_intersecting_insert`: iterates
`self.map.range(..=new_range.end).rev()` (the argument list is descending),
growing `[ns, ne)` and collecting keys to remove. Returns `none` on the
`unreachable!()` branch. -/
def intersectLoop : List (Nat × Nat) → Nat → Nat → List Nat → Option (Nat × Nat × List Nat)
  | [], ns, ne, rem => some (ns, ne, rem)
  | (s, l) :: rest, ns, ne, rem =>
    let e := s + l
    if ns < s then
      intersectLoop rest ns (if ne < e then e else ne) (rem ++ [s])
    else if e < ns then some (ns, ne, rem)
    else if e < ne then intersectLoop rest s ne (rem ++ [s])
    else none

/-- `RangeSet::_intersecting_insert` for the range `[start, stop)`. -/
def RangeSet._intersecting_insert (rs : RangeSet) (start stop : Nat) : Option RangeSet :=
  match intersectLoop (entriesLE rs.map stop).reverse start stop [] with
  | none => none
  | some (ns, ne, rem) =>
    let m := rem.foldl (fun acc s => mapRemove acc s) rs.map
    some { rs with map := mapInsert m ns (ne - ns) }

/-- `RangeSet::insert_range` for the range `[start, stop)`. Returns `none` on
the zero-length panic and on the `unreachable!()` inside
`_intersecting_insert`. -/
def RangeSet.insert_range (rs : RangeSet) (start stop : Nat) : Option (Bool × RangeSet) :=
  if start = stop then none
  else
    match lastLE rs.map stop with
    | some (s, len) =>
      let e := s + len
      if s ≤ start ∧ e ≥ stop then some (true, rs)
      else if e < start then some (rs._max_checked_insert start stop)
      else (rs._intersecting_insert start stop).map (fun rs' => (true, rs'))
    | none => some (rs._max_checked_insert start stop)

/-- Loop body of `RangeSet::remove_range`: iterates `map.range(..upper).rev()`
(the argument list is descending) collecting pending operations and the
affected count. A pending `(k, some v)` is `map.insert(k, v)`; `(k, none)` is
`map.remove(&k)`. -/
def removeLoop (lower upper : Nat) : List (Nat × Nat) → List (Nat × Option Nat) × Nat
  | [] => ([], 0)
  | (s, l) :: rest =>
    let e := s + l
    if e ≤ lower then ([], 0)
    else if e ≤ upper then
      if s ≥ lower then
        let r := removeLoop lower upper rest
        ((s, none) :: r.1, r.2 + 1)
      else ([(s, some (lower - s))], 1)
    else
      if s < lower then ([(s, some (lower - s)), (upper, some (e - upper))], 1)
      else
        let r := removeLoop lower upper rest
        ((s, none) :: (upper, some (e - upper)) :: r.1, r.2 + 1)

/-- Application of the pending operations at the end of `RangeSet::remove_range`. -/
def applyPending (m : List (Nat × Nat)) (ops : List (Nat × Option Nat)) : List (Nat × Nat) :=
  ops.foldl (fun acc op =>
    match op.2 with
    | some len => mapInsert acc op.1 len
    | none => mapRemove acc op.1) m

/-- `RangeSet::remove_range` for the materialized range `[lower, upper)`.
Returns `none` on the zero-length panic. -/
def RangeSet.remove_range (rs : RangeSet) (lower upper : Nat) : Option (RangeSet × Nat) :=
  if lower = upper then none
  else
    let r := removeLoop lower upper (entriesLT rs.map upper).reverse
    some ({ rs with map := applyPending rs.map r.1 }, r.2)

/-- `RangeSet::iter_range` for the materialized range `[start, stop)`: stored
ranges intersecting it, ascending, as `(start, end)` pairs. -/
def RangeSet.iter_range (rs : RangeSet) (start stop : Nat) : List (Nat × Nat) :=
  let first :=
    if start = 0 then 0
    else
      match lastLE rs.map start with
      | some (prev_start, len) => if prev_start + len > start then prev_start else start
      | none => start
  (rs.map.filter (fun p => first ≤ p.1 ∧ p.1 < stop)).map (fun p => (p.1, p.1 + p.2))

/-- Loop of the `ComplementIterator` of `RangeSet::range_complement`: walks the
intersecting ranges, emitting uncovered gaps, then the final gap up to `stop`. -/
def complementLoop (stop : Nat) : List (Nat × Nat) → Nat → List (Nat × Nat)
  | [], prev_end => if prev_end < stop then [(prev_end, stop)] else []
  | (s, e) :: rest, prev_end =>
    if s ≤ prev_end then complementLoop stop rest e
    else (prev_end, s) :: complementLoop stop rest e

/-- `RangeSet::range_complement` for the range `[start, stop)`: the maximal
subranges of `[start, stop)` not covered by the set, ascending. -/
def RangeSet.range_complement (rs : RangeSet) (start stop : Nat) : List (Nat × Nat) :=
  complementLoop stop (rs.iter_range start stop) start

/-- `RangeSet::peek_first`. -/
def RangeSet.peek_first (rs : RangeSet) : Option (Nat × Nat) :=
  rs.map.head?.map (fun p => (p.1, p.1 + p.2))

/-! ## StreamInboundState (kinesin-rdt/src/stream/inbound.rs) -/

/-- `ReceiveSegmentResult` of `StreamInboundState::receive_segment`. -/
inductive ReceiveSegmentResult
  | Received
  | Duplicate
  | ExceedsWindow
deriving Repr, DecidableEq

/-- `StreamInboundState`. The `RingBuf<u8>` is modelled by its logical byte
sequence. -/
structure StreamInboundState where
  buffer : List Nat
  buffer_offset : Nat
  received : RangeSet
  message_offsets : List (Nat × Option Nat)
  is_reliable : Bool
  window_limit : Nat
  final_offset : Option Nat
deriving Repr, DecidableEq

/-- `StreamInboundState::new`. The Rust code asserts
`initial_window_limit <= isize::MAX`; theorems that need it carry it as a
hypothesis. -/
def StreamInboundState.new (initial_window_limit : Nat) (is_reliable : Bool) :
    StreamInboundState :=
  { buffer := []
    buffer_offset := 0
    received := RangeSet.unlimited
    message_offsets := []
    is_reliable
    window_limit := initial_window_limit
    final_offset := none }

/-- Modelled from the spec: `RingBuf::fill_at_back(count, value)` is called by
`receive_segment` but its definition is not under src/; §4.3 of the spec says
the buffer is extended "writing zeroes" at the back, so it appends `count`
copies of `value`. -/
def fillAtBack (buffer : List Nat) (count : Nat) (value : Nat) : List Nat :=
  buffer ++ List.replicate count value

/-- Model of `buffer.range_mut(i..i + data.len()).copy_from_slice(data)`:
overwrite `buffer[i..i+len)` with `data`. -/
def writeAt (buffer : List Nat) (i : Nat) (data : List Nat) : List Nat :=
  buffer.take i ++ data ++ buffer.drop (i + data.length)

/-- Copy loop of `receive_segment`: for every subrange of the segment not yet
received, copy the corresponding bytes of `data` into the buffer. `none`
models the `checked_sub(...).expect` panic and the slice bounds-check panics
(`check_range`, slice indexing). -/
def copyRanges (offset buffer_offset : Nat) (data : List Nat) :
    List (Nat × Nat) → List Nat → Option (List Nat)
  | [], buffer => some buffer
  | (cs, ce) :: rest, buffer =>
    let len := ce - cs
    if cs < buffer_offset then none
    else
      let buffer_index := cs - buffer_offset
      let slice_start := cs - offset
      if slice_start + len > data.length then none
      else if buffer_index + len > buffer.length then none
      else copyRanges offset buffer_offset data rest
             (writeAt buffer buffer_index ((data.drop slice_start).take len))

/-- `StreamInboundState::receive_segment`. Returns `none` where the Rust code
panics (zero-length `insert_range`, inconsistent state). The subtraction
`segment.end - buffer_offset` is guarded: a segment ending below
`buffer_offset` is a broken state (invariant 2) and modelled as a panic. -/
def StreamInboundState.receive_segment (st : StreamInboundState) (offset : Nat)
    (data : List Nat) : Option (ReceiveSegmentResult × StreamInboundState) :=
  let tail := offset + data.length
  if tail > st.window_limit then some (.ExceedsWindow, st)
  else if st.received.has_range offset tail then some (.Duplicate, st)
  else if tail < st.buffer_offset then none
  else
    let buffer_end := tail - st.buffer_offset
    let buffer :=
      if buffer_end > st.buffer.length
      then fillAtBack st.buffer (buffer_end - st.buffer.length) 0
      else st.buffer
    match copyRanges offset st.buffer_offset data
        (st.received.range_complement offset tail) buffer with
    | none => none
    | some buffer' =>
      match st.received.insert_range offset tail with
      | none => none
      | some r =>
        some (.Received, { st with buffer := buffer', received := r.2 })

/-- `StreamInboundState::set_limit`. `none` models the two panics
(limit going backwards; buffer capacity exceeded). -/
def StreamInboundState.set_limit (st : StreamInboundState) (new_limit : Nat) :
    Option StreamInboundState :=
  if new_limit < st.window_limit then none
  else if new_limit - st.buffer_offset > ISIZE_MAX then none
  else some { st with window_limit := new_limit }

/-- `StreamInboundState::set_final_offset`. -/
def StreamInboundState.set_final_offset (st : StreamInboundState) (offset : Nat) :
    Bool × StreamInboundState :=
  match st.final_offset with
  | some _ => (false, st)
  | none => (true, { st with final_offset := some offset })

/-- `StreamInboundState::finished`. -/
def StreamInboundState.finished (st : StreamInboundState) : Bool :=
  match st.final_offset with
  | some final_offset =>
    if !st.is_reliable then true
    else
      match st.received.peek_first with
      | some received => decide (received.2 ≥ final_offset)
      | none => false
  | none => false

/-! ## Stream (parse-tcp/src/stream.rs) -/

/-- `SEQ_WINDOW_SIZE` (`1024 << 20`). -/
def SEQ_WINDOW_SIZE : Nat := 1024 <<< 20

/-- `SEQ_WINDOW_ADVANCE_THRESHOLD` (`512 << 20`). -/
def SEQ_WINDOW_ADVANCE_THRESHOLD : Nat := 512 <<< 20

/-- `SEQ_WINDOW_ADVANCE_BY` (`256 << 20`). -/
def SEQ_WINDOW_ADVANCE_BY : Nat := 256 <<< 20

/-- `MAX_ALLOWED_BUFFER_SIZE` (`128 << 20`). -/
def MAX_ALLOWED_BUFFER_SIZE : Nat := 128 <<< 20

/-- `MAX_SEGMENTS_INFO_COUNT` (`128 << 10`). -/
def MAX_SEGMENTS_INFO_COUNT : Nat := 128 <<< 10

/-- `RESET_MAX_LOOKAHEAD` (`16 << 20`). -/
def RESET_MAX_LOOKAHEAD : Nat := 16 <<< 20

/-- `RESET_MAX_LOOKBEHIND` (`256 << 10`). -/
def RESET_MAX_LOOKBEHIND : Nat := 256 <<< 10

/-- `SeqOffset`: offset from packet sequence number to absolute stream offset. -/
inductive SeqOffset
  | Initial (isn : Nat)
  | Subsequent (offset : Nat)
deriving Repr, DecidableEq

/-- `SeqOffset::compute_absolute`. In the `Initial` arm the Rust code has
`debug_assert!(number >= *isn)`; the subtraction is `Nat.sub`. -/
def SeqOffset.compute_absolute : SeqOffset → Nat → Nat
  | .Initial isn, number => number - isn
  | .Subsequent offset, number => number + offset

/-- `PacketExtra` is opaque round-trip metadata (never inspected by the core);
modelled as `Unit`. -/
abbrev PacketExtra := Unit

/-- `SegmentType`. -/
inductive SegmentType
  | Data (len : Nat) (is_retransmit : Bool)
  | Ack (window : Nat)
  | Fin (end_offset : Nat)
  | Rst
deriving Repr, DecidableEq

/-- `SegmentInfo`. -/
structure SegmentInfo where
  offset : Nat
  reverse_acked : Nat
  extra : PacketExtra
  data : SegmentType
deriving Repr, DecidableEq

/-- `Stream`: one direction of a connection. The `BinaryHeap<SegmentInfo>` is
modelled as a list (most recently pushed first); no claim depends on the heap
order. -/
structure Stream where
  initial_sequence_number : Nat
  seq_offset : SeqOffset
  window_scale : Nat
  got_window_scale : Bool
  state : StreamInboundState
  seq_window_start : Nat
  seq_window_end : Nat
  highest_acked : Nat
  reverse_acked : Nat
  had_reset : Bool
  has_ended : Bool
  gaps_length : Nat
  retransmit_count : Nat
  segments_info : List SegmentInfo
  segments_info_dropped : Nat
deriving Repr, DecidableEq

/-- `Stream::new`. -/
def Stream.new : Stream :=
  { initial_sequence_number := 0
    seq_offset := SeqOffset.Initial 0
    window_scale := 0
    got_window_scale := false
    state := StreamInboundState.new 0 true
    seq_window_start := 0
    seq_window_end := 0
    highest_acked := 0
    reverse_acked := 0
    had_reset := false
    has_ended := false
    gaps_length := 0
    retransmit_count := 0
    segments_info := []
    segments_info_dropped := 0 }

/-- `Stream::set_window_scale`. -/
def Stream.set_window_scale (s : Stream) (window_scale : Nat) : Bool × Stream :=
  if window_scale > 14 then (false, s)
  else (true, { s with window_scale := window_scale, got_window_scale := true })

/-- Loop of `Stream::estimate_window_scale`: starting from `try_scale`, find
the first scale whose limit `highest_acked + (unscaled << scale)` reaches
`fit_end_offset`; fails once the scale reaches 14. The first argument bounds
the remaining iterations (15 at the top-level call always suffices, since the
scale check `14 ≤ try_scale` fires first); it only makes the recursion
structural. -/
def estimateLoop (highest_acked unscaled fit_end_offset : Nat) :
    Nat → Nat → Option Nat
  | 0, _ => none
  | count + 1, try_scale =>
    if 14 ≤ try_scale then none
    else if highest_acked + (unscaled <<< try_scale) < fit_end_offset then
      estimateLoop highest_acked unscaled fit_end_offset count (try_scale + 1)
    else some try_scale

/-- `Stream::estimate_window_scale`. The Rust code has
`debug_assert!(fit_end_offset > window_limit)`; `window_limit - highest_acked`
is a guarded `u64` subtraction modelled as `Nat.sub`. Returns `none` when
`set_limit` panics. -/
def Stream.estimate_window_scale (s : Stream) (fit_end_offset : Nat) :
    Option (Bool × Stream) :=
  let window_available := s.state.window_limit - s.highest_acked
  if window_available < 8 then some (false, s)
  else
    let unscaled := window_available >>> s.window_scale
    if unscaled = 0 then some (false, s)
    else
      match estimateLoop s.highest_acked unscaled fit_end_offset 15 s.window_scale with
      | none => some (false, s)
      | some try_scale =>
        let new_limit := s.highest_acked + (unscaled <<< try_scale)
        match s.state.set_limit new_limit with
        | none => none
        | some st => some (true, { s with window_scale := try_scale, state := st })

/-- `Stream::set_isn`. Returns `none` when `set_limit` panics. -/
def Stream.set_isn (s : Stream) (isn : Nat) (window_size : Nat) : Option Stream :=
  let s₁ := { s with
    initial_sequence_number := isn
    seq_offset := SeqOffset.Initial isn
    seq_window_start := isn
    seq_window_end := wadd32 isn SEQ_WINDOW_SIZE }
  let window_size := window_size <<< s₁.window_scale
  if window_size < MAX_ALLOWED_BUFFER_SIZE then
    (s₁.state.set_limit window_size).map (fun st => { s₁ with state := st })
  else
    (s₁.state.set_limit MAX_ALLOWED_BUFFER_SIZE).map (fun st => { s₁ with state := st })

/-- `Stream::update_offset`: returns the possibly advanced stream and the
absolute offset of `number` if it is within the current sequence window.
Subtractions are guarded in the Rust code (`number >= seq_window_start` in the
branches where a plain `-` occurs); wrapping ops are explicit. -/
def Stream.update_offset (s : Stream) (number : Nat) (should_advance : Bool) :
    Stream × Option Nat :=
  if s.seq_window_start < s.seq_window_end then
    if ¬(number ≥ s.seq_window_start ∧ number < s.seq_window_end) then (s, none)
    else
      let s' :=
        if should_advance ∧ number - s.seq_window_start > SEQ_WINDOW_ADVANCE_THRESHOLD then
          let start := number - SEQ_WINDOW_ADVANCE_BY
          { s with seq_window_start := start,
                   seq_window_end := wadd32 start SEQ_WINDOW_SIZE }
        else s
      (s', some (s'.seq_offset.compute_absolute number))
  else if number < s.seq_window_start ∧ number ≥ s.seq_window_end then (s, none)
  else if number ≥ s.seq_window_start then
    let s' :=
      if should_advance ∧ number - s.seq_window_start > SEQ_WINDOW_ADVANCE_THRESHOLD then
        let start := number - SEQ_WINDOW_ADVANCE_BY
        { s with seq_window_start := start,
                 seq_window_end := wadd32 start SEQ_WINDOW_SIZE }
      else s
    (s', some (s'.seq_offset.compute_absolute number))
  else
    let bytes_from_start := wsub32 number s.seq_window_start
    let rollover_offset :=
      match s.seq_offset with
      | .Initial isn => SeqOffset.Subsequent (U32_MOD - isn)
      | .Subsequent off => SeqOffset.Subsequent (off + U32_MOD)
    let s' :=
      if should_advance ∧ bytes_from_start > SEQ_WINDOW_ADVANCE_THRESHOLD then
        let start := wsub32 number SEQ_WINDOW_ADVANCE_BY
        let s₁ := { s with seq_window_start := start,
                           seq_window_end := wadd32 start SEQ_WINDOW_SIZE }
        if s₁.seq_window_start < s₁.seq_window_end then
          { s₁ with seq_offset := rollover_offset }
        else s₁
      else s
    (s', some (rollover_offset.compute_absolute number))

/-- `Stream::add_segment_info`. -/
def Stream.add_segment_info (s : Stream) (info : SegmentInfo) : Bool × Stream :=
  if s.segments_info.length < MAX_SEGMENTS_INFO_COUNT then
    (true, { s with segments_info := info :: s.segments_info })
  else
    (false, { s with segments_info_dropped := s.segments_info_dropped + 1 })

/-- `Stream::handle_data_packet`. Returns `none` where the Rust code panics
(`unreachable!()` on `ExceedsWindow`, panics inside `set_limit` /
`receive_segment`). The middle `step` value is `some none` when the packet is
dropped ("packet exceeds max buffer"). -/
def Stream.handle_data_packet (s : Stream) (sequence_number : Nat) (data : List Nat)
    (extra : PacketExtra) : Option (Bool × Stream) :=
  match s.update_offset sequence_number true with
  | (s₁, none) => some (false, s₁)
  | (s₁, some offset) =>
    let packet_end_offset := offset + data.length
    let step : Option (Option (Stream × List Nat)) :=
      if packet_end_offset > s₁.state.window_limit then
        if packet_end_offset - s₁.state.buffer_offset < MAX_ALLOWED_BUFFER_SIZE then
          if ¬s₁.got_window_scale then
            match s₁.estimate_window_scale packet_end_offset with
            | none => none
            | some (true, s₂) => some (some (s₂, data))
            | some (false, s₂) =>
              match s₂.state.set_limit packet_end_offset with
              | none => none
              | some st => some (some ({ s₂ with state := st }, data))
          else
            match s₁.state.set_limit packet_end_offset with
            | none => none
            | some st => some (some ({ s₁ with state := st }, data))
        else
          let max_offset := s₁.state.buffer_offset + MAX_ALLOWED_BUFFER_SIZE
          let max_len := max_offset - offset
          if max_len > 0 then some (some (s₁, data.take max_len))
          else some none
      else some (some (s₁, data))
    match step with
    | none => none
    | some none => some (false, s₁)
    | some (some (s₂, data')) =>
      match s₂.state.receive_segment offset data' with
      | none => none
      | some (ReceiveSegmentResult.ExceedsWindow, _) => none
      | some (res, st') =>
        let is_retransmit := res = ReceiveSegmentResult.Duplicate
        let s₃ := { s₂ with
          state := st'
          retransmit_count := s₂.retransmit_count + (if is_retransmit then 1 else 0) }
        let s₄ := (s₃.add_segment_info
          { offset
            reverse_acked := s₃.reverse_acked
            extra
            data := SegmentType.Data data'.length is_retransmit }).2
        some (!is_retransmit, s₄)

/-- `Stream::handle_ack_packet`. Returns `none` when `set_limit` panics.
`real_window` is a `u32` shift, hence the `% 2^32`. -/
def Stream.handle_ack_packet (s : Stream) (acknowledgment_number window_size : Nat)
    (extra : PacketExtra) : Option (Bool × Stream) :=
  match s.update_offset acknowledgment_number true with
  | (s₁, none) => some (false, s₁)
  | (s₁, some offset) =>
    let s₂ := if offset > s₁.highest_acked then { s₁ with highest_acked := offset } else s₁
    let s₃ :=
      match s₂.state.final_offset with
      | some final_seq =>
        if s₂.highest_acked > final_seq then { s₂ with has_ended := true } else s₂
      | none => s₂
    let real_window := (window_size <<< s₃.window_scale) % U32_MOD
    let limit := offset + real_window
    let step : Option Stream :=
      if limit > s₃.state.window_limit then
        let new_buffer_size := limit - s₃.state.buffer_offset
        if new_buffer_size > MAX_ALLOWED_BUFFER_SIZE then
          (s₃.state.set_limit (s₃.state.buffer_offset + MAX_ALLOWED_BUFFER_SIZE)).map
            (fun st => { s₃ with state := st })
        else
          (s₃.state.set_limit limit).map (fun st => { s₃ with state := st })
      else some s₃
    match step with
    | none => none
    | some s₄ =>
      some (true, (s₄.add_segment_info
        { offset
          reverse_acked := s₄.reverse_acked
          extra
          data := SegmentType.Ack real_window }).2)

/-- `Stream::handle_fin_packet`. -/
def Stream.handle_fin_packet (s : Stream) (sequence_number data_len : Nat)
    (extra : PacketExtra) : Bool × Stream :=
  match s.update_offset sequence_number true with
  | (s₁, none) => (false, s₁)
  | (s₁, some offset) =>
    let fin_offset := offset + data_len
    let s₂ :=
      match s₁.state.final_offset with
      | none => { s₁ with state := (s₁.state.set_final_offset fin_offset).2 }
      | some _ => s₁
    (true, (s₂.add_segment_info
      { offset
        reverse_acked := s₂.reverse_acked
        extra
        data := SegmentType.Fin fin_offset }).2)

/-- `Stream::handle_rst_packet`: validates the reset offset against
`highest_acked` with `saturating_sub`/`saturating_add` bounds; never advances
the sequence window (`should_advance = false`). -/
def Stream.handle_rst_packet (s : Stream) (sequence_number : Nat)
    (extra : PacketExtra) : Bool × Stream :=
  match s.update_offset sequence_number false with
  | (s₁, none) => (false, s₁)
  | (s₁, some offset) =>
    if offset ≥ s₁.highest_acked - RESET_MAX_LOOKBEHIND ∧
        offset < satAdd64 s₁.highest_acked RESET_MAX_LOOKAHEAD then
      (true, (s₁.add_segment_info
        { offset
          reverse_acked := s₁.reverse_acked
          extra
          data := SegmentType.Rst }).2)
    else (false, s₁)

/-- `in_range_wrapping` (parse-tcp/src/stream.rs): whether
`(base - before) <= value <= (base + after)` in 32-bit circular arithmetic.
`none` models the panic when both bounds wrap. Inputs are `u32` values
(`< 2^32`). -/
def in_range_wrapping (base before after value : Nat) : Option Bool :=
  let begin_ := wsub32 base before
  let begin_wrap := decide (base < before)
  let end_ := wadd32 base after
  let end_wrap := decide (base + after ≥ U32_MOD)
  if begin_wrap ∧ end_wrap then none
  else if begin_ ≤ end_ then some (decide (begin_ ≤ value ∧ value ≤ end_))
  else some (decide (begin_ ≤ value ∨ value ≤ end_))

/-! ## Flow and Connection (parse-tcp/src/flow_table.rs, connection.rs)

`IpAddr` only ever participates in equality comparisons in the core and is
modelled as `Nat`. The `uuid` field of `Connection` (only logged) is omitted.
The `ConnectionHandler` is modelled as the list of callback events, recorded
in invocation order in `Connection.events`. -/

/-- `IPPROTO_TCP`. -/
def IPPROTO_TCP : Nat := 6

/-- `Direction`. -/
inductive Direction
  | Forward
  | Reverse
deriving Repr, DecidableEq

/-- `Direction::swap`. -/
def Direction.swap : Direction → Direction
  | .Forward => .Reverse
  | .Reverse => .Forward

/-- `FlowCompare`. -/
inductive FlowCompare
  | Forward
  | Reverse
  | None
deriving Repr, DecidableEq

/-- `FlowCompare::to_direction`. -/
def FlowCompare.to_direction : FlowCompare → Option Direction
  | .Forward => some .Forward
  | .Reverse => some .Reverse
  | .None => none

/-- `Flow`. -/
structure Flow where
  proto : Nat
  src_addr : Nat
  src_port : Nat
  dst_addr : Nat
  dst_port : Nat
deriving Repr, DecidableEq

/-- `Flow::reverse` (in-place swap, modelled functionally). -/
def Flow.reverse (f : Flow) : Flow :=
  { f with src_addr := f.dst_addr, src_port := f.dst_port,
           dst_addr := f.src_addr, dst_port := f.src_port }

/-- `Flow::compare`. -/
def Flow.compare (f other : Flow) : FlowCompare :=
  if f.proto ≠ other.proto then .None
  else if f.src_addr = other.src_addr ∧ f.dst_addr = other.dst_addr ∧
      f.src_port = other.src_port ∧ f.dst_port = other.dst_port then .Forward
  else if f.src_addr = other.dst_addr ∧ f.dst_addr = other.src_addr ∧
      f.src_port = other.dst_port ∧ f.dst_port = other.src_port then .Reverse
  else .None

/-- `TcpFlags`. -/
structure TcpFlags where
  syn : Bool := false
  ack : Bool := false
  fin : Bool := false
  rst : Bool := false
deriving Repr, DecidableEq

/-- `TcpMeta`. -/
structure TcpMeta where
  src_addr : Nat
  src_port : Nat
  dst_addr : Nat
  dst_port : Nat
  seq_number : Nat
  ack_number : Nat
  flags : TcpFlags
  window : Nat
  option_window_scale : Option Nat
  option_timestamp : Option (Nat × Nat)
deriving Repr, DecidableEq

/-- `impl From<&TcpMeta> for Flow`. -/
def Flow.ofMeta (m : TcpMeta) : Flow :=
  { proto := IPPROTO_TCP
    src_addr := m.src_addr
    src_port := m.src_port
    dst_addr := m.dst_addr
    dst_port := m.dst_port }

/-- `Flow::compare_tcp_meta`. -/
def Flow.compare_tcp_meta (f : Flow) (m : TcpMeta) : FlowCompare :=
  f.compare (Flow.ofMeta m)

/-- `ConnectionState`. -/
inductive ConnectionState
  | None
  | SynSent (seq_no : Nat)
  | SynReceived (seq_no ack_no : Nat) (window_size : Nat) (syn_seen : Bool)
  | Established (forward_isn reverse_isn : Nat)
  | Closed
  | Desync
deriving Repr, DecidableEq

/-- Handler callback events (model of the `ConnectionHandler` trait object). -/
inductive HandlerEvent
  | handshake_done
  | data_received (dir : Direction)
  | ack_received (dir : Direction)
  | fin_received (dir : Direction)
  | rst_received (dir : Direction)
  | stream_end (dir : Direction)
  | connection_desync (dir : Direction)
  | will_retire
deriving Repr, DecidableEq

/-- `Connection`. The `uuid` (only logged) and the handler object are omitted;
`events` records the handler callbacks in invocation order. -/
structure Connection where
  forward_flow : Flow
  conn_state : ConnectionState
  observed_handshake : Bool
  observed_close : Bool
  forward_stream : Stream
  reverse_stream : Stream
  events : List HandlerEvent
deriving Repr, DecidableEq

/-- `Connection::new` (handler construction always succeeds in the model). -/
def Connection.new (forward_flow : Flow) : Connection :=
  { forward_flow
    conn_state := ConnectionState.None
    observed_handshake := false
    observed_close := false
    forward_stream := Stream.new
    reverse_stream := Stream.new
    events := [] }

/-- `Connection::get_stream`. -/
def Connection.getStream (c : Connection) : Direction → Stream
  | .Forward => c.forward_stream
  | .Reverse => c.reverse_stream

/-- Writing back a stream chosen by direction. -/
def Connection.setStream (c : Connection) : Direction → Stream → Connection
  | .Forward, s => { c with forward_stream := s }
  | .Reverse, s => { c with reverse_stream := s }

/-- `Connection::call_handler`: the handler records the event. -/
def Connection.emit (c : Connection) (e : HandlerEvent) : Connection :=
  { c with events := c.events ++ [e] }

/-- `Connection::handle_syn`. Returns `none` on the
`expect("connection got unrelated packet")` panic. -/
def Connection.handle_syn (c : Connection) (meta : TcpMeta) : Option (Bool × Connection) :=
  match c.conn_state with
  | ConnectionState.None =>
    if meta.flags.ack then
      let c₁ := { c with conn_state :=
        ConnectionState.SynReceived meta.seq_number meta.ack_number meta.window false }
      let c₂ :=
        match meta.option_window_scale with
        | some scale => { c₁ with reverse_stream := (c₁.reverse_stream.set_window_scale scale).2 }
        | none => c₁
      let c₃ :=
        if c₂.forward_flow.compare_tcp_meta meta = FlowCompare.Forward then
          { c₂ with forward_flow := c₂.forward_flow.reverse }
        else c₂
      some (true, c₃)
    else
      let c₁ := { c with conn_state := ConnectionState.SynSent meta.seq_number }
      let c₂ :=
        match meta.option_window_scale with
        | some scale => { c₁ with forward_stream := (c₁.forward_stream.set_window_scale scale).2 }
        | none => c₁
      let c₃ :=
        if c₂.forward_flow.compare_tcp_meta meta = FlowCompare.Reverse then
          { c₂ with forward_flow := c₂.forward_flow.reverse }
        else c₂
      some (true, c₃)
  | ConnectionState.SynSent _ =>
    if meta.flags.ack then
      if c.forward_flow.compare_tcp_meta meta ≠ FlowCompare.Reverse then some (false, c)
      else
        let c₁ := { c with conn_state :=
          ConnectionState.SynReceived meta.seq_number meta.ack_number meta.window true }
        let c₂ :=
          match meta.option_window_scale with
          | some scale =>
            { c₁ with reverse_stream := (c₁.reverse_stream.set_window_scale scale).2 }
          | none => c₁
        some (true, c₂)
    else some (false, c)
  | ConnectionState.SynReceived _ _ _ _ => some (false, c)
  | ConnectionState.Established _ _ =>
    let c₁ := { c with conn_state := ConnectionState.Desync }
    match (c₁.forward_flow.compare_tcp_meta meta).to_direction with
    | none => none
    | some dir => some (false, c₁.emit (HandlerEvent.connection_desync dir))
  | _ => some (false, c)

/-- `Connection::handle_rst`. Returns `none` on the unrelated-flow panic and
the `in_range_wrapping` panic. The common accepting tail (mark `had_reset`,
close, emit `rst_received`) is inlined per branch outcome. -/
def Connection.handle_rst (c : Connection) (meta : TcpMeta) (_extra : PacketExtra) :
    Option (Bool × Connection) :=
  match (c.forward_flow.compare_tcp_meta meta).to_direction with
  | none => none
  | some dir =>
    let accept : Option (Option Connection) :=
      match c.conn_state with
      | ConnectionState.None => some (some c)
      | ConnectionState.SynSent _ =>
        if dir = Direction.Forward then some none else some (some c)
      | ConnectionState.SynReceived seq_no ack_no _ _ =>
        let base := match dir with
          | Direction.Forward => seq_no
          | Direction.Reverse => ack_no
        match in_range_wrapping base 0 RESET_MAX_LOOKAHEAD meta.seq_number with
        | none => none
        | some true => some (some c)
        | some false => some none
      | ConnectionState.Established _ _ =>
        let r := (c.getStream dir).handle_rst_packet meta.seq_number _extra
        let c₁ := c.setStream dir r.2
        if r.1 then some (some c₁) else some none
      | ConnectionState.Closed => some none
      | ConnectionState.Desync => some none
    match accept with
    | none => none
    | some none => some (false, c)
    | some (some c₁) =>
      let c₂ := c₁.setStream dir { c₁.getStream dir with had_reset := true }
      let c₃ := { c₂ with conn_state := ConnectionState.Closed, observed_close := true }
      some (true, c₃.emit (HandlerEvent.rst_received dir))

/-- `Connection::handle_data_established`. Returns `none` where stream handlers
panic or the flow is unrelated. -/
def Connection.handle_data_established (c : Connection) (meta : TcpMeta)
    (data : List Nat) (extra : PacketExtra) : Option (Bool × Connection) :=
  match (c.forward_flow.compare_tcp_meta meta).to_direction with
  | none => none
  | some dir =>
    let data_stream := c.getStream dir
    let ack_stream := c.getStream dir.swap
    let stepData : Option (Bool × Stream) :=
      if data ≠ [] then data_stream.handle_data_packet meta.seq_number data extra
      else some (false, data_stream)
    match stepData with
    | none => none
    | some (got_data, ds₁) =>
      let was_ended := ack_stream.has_ended
      let stepAck : Option (Bool × Stream × Stream) :=
        if meta.flags.ack then
          match ack_stream.handle_ack_packet meta.ack_number meta.window extra with
          | none => none
          | some (got_ack, as₁) =>
            some (got_ack, { ds₁ with reverse_acked := as₁.highest_acked }, as₁)
        else some (false, ds₁, ack_stream)
      match stepAck with
      | none => none
      | some (got_ack, ds₂, as₂) =>
        let ack_stream_got_end := ¬was_ended ∧ as₂.has_ended
        let data_stream_has_ended := ds₂.has_ended
        let stepFin : Bool × Stream :=
          if meta.flags.fin then ds₂.handle_fin_packet meta.seq_number data.length extra
          else (false, ds₂)
        let got_fin := stepFin.1
        let c₁ := (c.setStream dir stepFin.2).setStream dir.swap as₂
        let c₂ := if got_data then c₁.emit (HandlerEvent.data_received dir) else c₁
        let c₃ := if got_ack then c₂.emit (HandlerEvent.ack_received dir) else c₂
        let c₄ := if got_fin then c₃.emit (HandlerEvent.fin_received dir) else c₃
        let c₅ :=
          if ack_stream_got_end then
            let ca := c₄.emit (HandlerEvent.stream_end dir.swap)
            if data_stream_has_ended then
              { ca with conn_state := ConnectionState.Closed, observed_close := true }
            else ca
          else c₄
        some (got_data || got_ack || got_fin, c₅)

/-- `Connection::handle_data_hs1`: data before handshake completion in states
`None`/`SynSent`; synthesizes the Established transition. -/
def Connection.handle_data_hs1 (c : Connection) (meta : TcpMeta) (data : List Nat)
    (extra : PacketExtra) : Option (Bool × Connection) :=
  let isns : Option (Nat × Nat) :=
    match c.forward_flow.compare_tcp_meta meta with
    | FlowCompare.Forward => some (meta.seq_number, meta.ack_number)
    | FlowCompare.Reverse => some (meta.ack_number, meta.seq_number)
    | FlowCompare.None => none
  match isns with
  | none => none
  | some (forward_isn, reverse_isn) =>
    let c₁ := { c with conn_state := ConnectionState.Established forward_isn reverse_isn }
    match c₁.forward_stream.set_isn forward_isn 0 with
    | none => none
    | some fs =>
      match c₁.reverse_stream.set_isn reverse_isn 0 with
      | none => none
      | some rs =>
        let c₂ := { c₁ with forward_stream := fs, reverse_stream := rs }
        let c₃ := c₂.emit HandlerEvent.handshake_done
        if data ≠ [] then c₃.handle_data_established meta data extra
        else some (true, c₃)

/-- `Connection::handle_data_hs2`: data (or the final ACK) in state
`SynReceived`. Returns `none` on the wrong-state panic. -/
def Connection.handle_data_hs2 (c : Connection) (meta : TcpMeta) (data : List Nat)
    (extra : PacketExtra) : Option (Bool × Connection) :=
  match c.conn_state with
  | ConnectionState.SynReceived seq_no ack_no forward_window syn_seen =>
    let step : Option (Nat × Nat × Nat × Bool) :=
      match c.forward_flow.compare_tcp_meta meta with
      | FlowCompare.Forward =>
        if meta.flags.ack ∧ meta.seq_number = ack_no ∧ meta.ack_number = seq_no + 1 then
          if syn_seen then some (meta.seq_number, meta.ack_number, meta.window, true)
          else some (meta.seq_number, meta.ack_number, 0, false)
        else some (meta.seq_number, meta.ack_number, 0, false)
      | FlowCompare.Reverse => some (meta.ack_number, meta.seq_number, 0, false)
      | FlowCompare.None => none
    match step with
    | none => none
    | some (forward_isn, reverse_isn, reverse_window, observed) =>
      let c₁ := { c with
        conn_state := ConnectionState.Established forward_isn reverse_isn
        observed_handshake := c.observed_handshake || observed }
      match c₁.forward_stream.set_isn forward_isn forward_window with
      | none => none
      | some fs =>
        match c₁.reverse_stream.set_isn reverse_isn reverse_window with
        | none => none
        | some rs =>
          let c₂ := { c₁ with forward_stream := fs, reverse_stream := rs }
          let c₃ := c₂.emit HandlerEvent.handshake_done
          if data ≠ [] then c₃.handle_data_established meta data extra
          else some (true, c₃)
  | _ => none

/-- `Connection::handle_data`. -/
def Connection.handle_data (c : Connection) (meta : TcpMeta) (data : List Nat)
    (extra : PacketExtra) : Option (Bool × Connection) :=
  match c.conn_state with
  | ConnectionState.None => c.handle_data_hs1 meta data extra
  | ConnectionState.SynSent _ => c.handle_data_hs1 meta data extra
  | ConnectionState.SynReceived _ _ _ _ => c.handle_data_hs2 meta data extra
  | _ => c.handle_data_established meta data extra

/-- `Connection::handle_packet`. -/
def Connection.handle_packet (c : Connection) (meta : TcpMeta) (data : List Nat)
    (extra : PacketExtra) : Option (Bool × Connection) :=
  if meta.flags.syn then c.handle_syn meta
  else if meta.flags.rst then c.handle_rst meta extra
  else c.handle_data meta data extra

/-! ## Semantic predicates used by the theorems -/

/-- A point is covered by one of the stored ranges. -/
def covers (l : List (Nat × Nat)) (v : Nat) : Prop :=
  ∃ p ∈ l, p.1 ≤ v ∧ v < p.1 + p.2

/-- Well-formedness of the backing map: ranges are sorted, pairwise disjoint
and non-adjacent (`a.end < b.start`), and non-empty. This is the `RangeSet`
invariant (checked by `ensure_consistency` in the Rust test suite). -/
def WF (l : List (Nat × Nat)) : Prop :=
  l.Pairwise (fun a b => a.1 + a.2 < b.1) ∧ ∀ p ∈ l, 0 < p.2

/-- The range `[a, b)` neither overlaps nor touches (is adjacent to) any
stored range. -/
def separated (l : List (Nat × Nat)) (a b : Nat) : Prop :=
  ∀ p ∈ l, p.1 + p.2 < a ∨ b < p.1

/-- One `RangeSet` operation, for stating the invariant over arbitrary
operation sequences. -/
inductive RSOp
  | insert (a b : Nat)
  | remove (a b : Nat)

/-- A well-formed (non-degenerate) operation argument: `start < end`. -/
def RSOp.valid : RSOp → Bool
  | .insert a b => a < b
  | .remove a b => a < b

/-- Apply one operation (`none` propagates a panic). -/
def applyRSOp (rs : RangeSet) : RSOp → Option RangeSet
  | .insert a b => (rs.insert_range a b).map (fun r => r.2)
  | .remove a b => (rs.remove_range a b).map (fun r => r.1)

/-- Apply a sequence of operations. -/
def applyRSOps : List RSOp → RangeSet → Option RangeSet
  | [], rs => some rs
  | op :: rest, rs =>
    match applyRSOp rs op with
    | none => none
    | some rs' => applyRSOps rest rs'

/-- Byte of the inbound buffer at absolute stream offset `v`. -/
def StreamInboundState.byteAt (st : StreamInboundState) (v : Nat) : Option Nat :=
  st.buffer[v - st.buffer_offset]?

/-! ## Concrete scenario inputs for the claims -/

/-- ISN near the top of 32-bit sequence space for the sequence-wrap scenario
(`2^32 - 10000`). -/
def C1_ISN : Nat := 2 ^ 32 - 10000

/-- Handshake packet 1 for the connection scenario: SYN, client → server. -/
def c5syn : TcpMeta :=
  { src_addr := 91, src_port := 3161, dst_addr := 23, dst_port := 45143
    seq_number := 1000, ack_number := 0
    flags := { syn := true }, window := 512
    option_window_scale := none, option_timestamp := none }

/-- Handshake packet 2: matching SYN/ACK, server → client. -/
def c5synack : TcpMeta :=
  { src_addr := 23, src_port := 45143, dst_addr := 91, dst_port := 3161
    seq_number := 2000, ack_number := 1001
    flags := { syn := true, ack := true }, window := 512
    option_window_scale := none, option_timestamp := none }

/-- Handshake packet 3: matching final ACK, client → server. -/
def c5ack : TcpMeta :=
  { src_addr := 91, src_port := 3161, dst_addr := 23, dst_port := 45143
    seq_number := 1001, ack_number := 2001
    flags := { ack := true }, window := 512
    option_window_scale := none, option_timestamp := none }

/-- Forward data segment (one payload byte, no other flags). -/
def c5dataF : TcpMeta :=
  { src_addr := 91, src_port := 3161, dst_addr := 23, dst_port := 45143
    seq_number := 1001, ack_number := 2001
    flags := {}, window := 512
    option_window_scale := none, option_timestamp := none }

/-- Reverse data segment (one payload byte, no other flags). -/
def c5dataR : TcpMeta :=
  { src_addr := 23, src_port := 45143, dst_addr := 91, dst_port := 3161
    seq_number := 2001, ack_number := 1002
    flags := {}, window := 512
    option_window_scale := none, option_timestamp := none }

/-- The full connection scenario: three-way handshake, then one non-empty data
segment in each direction. -/
def c5Run : Option Connection :=
  ((Connection.new (Flow.ofMeta c5syn)).handle_packet c5syn [] ()).bind fun r₁ =>
    (r₁.2.handle_packet c5synack [] ()).bind fun r₂ =>
      (r₂.2.handle_packet c5ack [] ()).bind fun r₃ =>
        (r₃.2.handle_packet c5dataF [42] ()).bind fun r₄ =>
          (r₄.2.handle_packet c5dataR [43] ()).map fun r₅ => r₅.2

/-- Stream state after `Stream::new` + `set_isn(0, 65535)` (window scale
unobserved): start state of the window-scale-inference scenario. -/
def c8Start : Stream :=
  { initial_sequence_number := 0
    seq_offset := SeqOffset.Initial 0
    window_scale := 0
    got_window_scale := false
    state := { buffer := [], buffer_offset := 0, received := ⟨[], USIZE_MAX⟩,
               message_offsets := [], is_reliable := true, window_limit := 65535,
               final_offset := none }
    seq_window_start := 0
    seq_window_end := 1073741824
    highest_acked := 0
    reverse_acked := 0
    had_reset := false
    has_ended := false
    gaps_length := 0
    retransmit_count := 0
    segments_info := []
    segments_info_dropped := 0 }

/-- `c8Start` after `estimate_window_scale` succeeds with scale 2. -/
def c8Mid : Stream :=
  { c8Start with window_scale := 2, state := { c8Start.state with window_limit := 262140 } }

/-- Stream state after `Stream::new` + `set_isn(C1_ISN, 65535)`: start state of
the sequence-wrap scenario (note the wrapped sequence window
`[4294957296, 1073731824)`). -/
def c1Start : Stream :=
  { initial_sequence_number := 4294957296
    seq_offset := SeqOffset.Initial 4294957296
    window_scale := 0
    got_window_scale := false
    state := { buffer := [], buffer_offset := 0, received := ⟨[], USIZE_MAX⟩,
               message_offsets := [], is_reliable := true, window_limit := 65535,
               final_offset := none }
    seq_window_start := 4294957296
    seq_window_end := 1073731824
    highest_acked := 0
    reverse_acked := 0
    had_reset := false
    has_ended := false
    gaps_length := 0
    retransmit_count := 0
    segments_info := []
    segments_info_dropped := 0 }

/-- `c1Start` after receiving the first 8 KiB segment. -/
def c1S2 (d1 : List Nat) : Stream :=
  { c1Start with
    state := { c1Start.state with buffer := d1, received := ⟨[(0, 8192)], USIZE_MAX⟩ }
    segments_info := [⟨0, 0, (), SegmentType.Data 8192 false⟩] }

/-- `c1Start` after receiving the first two 8 KiB segments. -/
def c1S3 (d1 d2 : List Nat) : Stream :=
  { c1Start with
    state := { c1Start.state with buffer := d1 ++ d2, received := ⟨[(0, 16384)], USIZE_MAX⟩ }
    segments_info := [⟨8192, 0, (), SegmentType.Data 8192 false⟩,
                      ⟨0, 0, (), SegmentType.Data 8192 false⟩] }

/-- `c1Start` after receiving all three 8 KiB segments. -/
def c1S4 (d1 d2 d3 : List Nat) : Stream :=
  { c1Start with
    state := { c1Start.state with buffer := d1 ++ d2 ++ d3, received := ⟨[(0, 24576)], USIZE_MAX⟩ }
    segments_info := [⟨16384, 0, (), SegmentType.Data 8192 false⟩,
                      ⟨8192, 0, (), SegmentType.Data 8192 false⟩,
                      ⟨0, 0, (), SegmentType.Data 8192 false⟩] }

def c3State1 (W o1 : Nat) (d1 : List Nat) : StreamInboundState :=
  { StreamInboundState.new W true with
    buffer := writeAt (List.replicate (o1 + d1.length) 0) o1 d1
    received := ⟨[(o1, d1.length)], USIZE_MAX⟩ }

/-! # Theorems -/

/-! ## C5: connection handshake scenario -/

/-- C5: feeding a `Connection` a well-formed three-way handshake (SYN, matching
SYN/ACK, matching final ACK) followed by exactly one non-empty data segment in
each direction invokes exactly the handler callbacks `handshake_done` (once),
`data_received Forward` (once) and `data_received Reverse` (once), in that
order; in particular `connection_desync` is never invoked. -/
theorem claim_C5_handshake_callbacks :
    c5Run.map Connection.events =
      some [HandlerEvent.handshake_done,
            HandlerEvent.data_received Direction.Forward,
            HandlerEvent.data_received Direction.Reverse] := by
  rfl

/-! ## C9: resets never slide the sequence window -/

/-- With `should_advance = false`, `update_offset` never mutates the stream. -/
theorem update_offset_false_fst (s : Stream) (n : Nat) :
    (s.update_offset n false).1 = s := by
  simp only [Stream.update_offset, eq_false Bool.false_ne_true, false_and, if_false]
  split
  · split
    · rfl
    · rfl
  · split
    · rfl
    · split
      · rfl
      · rfl

/-- `add_segment_info` only touches `segments_info` / `segments_info_dropped`. -/
theorem add_segment_info_preserves (s : Stream) (info : SegmentInfo) :
    (s.add_segment_info info).2.seq_window_start = s.seq_window_start ∧
    (s.add_segment_info info).2.seq_window_end = s.seq_window_end ∧
    (s.add_segment_info info).2.seq_offset = s.seq_offset := by
  unfold Stream.add_segment_info
  split <;> exact ⟨rfl, rfl, rfl⟩

/-- C9: for every sequence number, `handle_rst_packet` leaves
`seq_window_start`, `seq_window_end` and `seq_offset` unchanged, whether the
reset is accepted or rejected: the sequence window never slides on a reset
because `update_offset` is called with `should_advance = false`. -/
theorem claim_C9_rst_never_slides_window (s : Stream) (seq : Nat) (extra : PacketExtra) :
    (s.handle_rst_packet seq extra).2.seq_window_start = s.seq_window_start ∧
    (s.handle_rst_packet seq extra).2.seq_window_end = s.seq_window_end ∧
    (s.handle_rst_packet seq extra).2.seq_offset = s.seq_offset := by
  have h := update_offset_false_fst s seq
  unfold Stream.handle_rst_packet
  rcases hu : s.update_offset seq false with ⟨s₁, o⟩
  rw [hu] at h
  simp only at h
  subst h
  cases o with
  | none => exact ⟨rfl, rfl, rfl⟩
  | some offset =>
    simp only
    split
    · exact add_segment_info_preserves _ _
    · exact ⟨rfl, rfl, rfl⟩

/-! ## C4: reset offset validation (corrected) -/

/-- C4 counterexample: with `highest_acked = 0` the claimed closed interval
`[highest_acked − 256 KiB, highest_acked + 16 MiB]` contains the offset
`2^24 = highest_acked + 16 MiB`, but `handle_rst_packet` rejects a reset
resolving to exactly that offset (the code compares with strict `<` on the
high side) and pushes nothing. -/
theorem claim_C4_counterexample :
    ∃ s : Stream, Stream.new.set_isn 0 1024 = some s ∧
      (s.update_offset (2 ^ 24) false).2 = some (2 ^ 24) ∧
      s.highest_acked = 0 ∧
      s.highest_acked - RESET_MAX_LOOKBEHIND ≤ 2 ^ 24 ∧
      2 ^ 24 ≤ satAdd64 s.highest_acked RESET_MAX_LOOKAHEAD ∧
      (s.handle_rst_packet (2 ^ 24) ()).1 = false ∧
      (s.handle_rst_packet (2 ^ 24) ()).2.segments_info = [] := by
  refine ⟨_, rfl, ?_, ?_, ?_, ?_, ?_, ?_⟩ <;> decide

/-- C4 (amended): whenever the reset's sequence number resolves to absolute
offset `offset`, `handle_rst_packet` accepts the reset iff `offset` lies in
the half-open interval
`[highest_acked − 256 KiB, highest_acked + 16 MiB)` (saturating on both
sides); on accept (given the segment-info heap is below its cap) it pushes a
`Rst` segment-info entry and returns `true`; on reject it returns `false`
and the stream (in particular `segments_info`) is unchanged apart from the
`update_offset` call, which with `should_advance = false` changes nothing. -/
theorem claim_C4_rst_validation (s : Stream) (seq : Nat) (extra : PacketExtra)
    (offset : Nat) (hres : (s.update_offset seq false).2 = some offset)
    (hroom : s.segments_info.length < MAX_SEGMENTS_INFO_COUNT) :
    (s.handle_rst_packet seq extra =
        (true, { s with segments_info :=
          { offset := offset, reverse_acked := s.reverse_acked, extra := extra,
            data := SegmentType.Rst } :: s.segments_info })
      ↔ (s.highest_acked - RESET_MAX_LOOKBEHIND ≤ offset ∧
          offset < satAdd64 s.highest_acked RESET_MAX_LOOKAHEAD)) ∧
    (¬(s.highest_acked - RESET_MAX_LOOKBEHIND ≤ offset ∧
        offset < satAdd64 s.highest_acked RESET_MAX_LOOKAHEAD) →
      s.handle_rst_packet seq extra = (false, s)) := by
  have h := update_offset_false_fst s seq
  unfold Stream.handle_rst_packet
  rcases hu : s.update_offset seq false with ⟨s₁, o⟩
  rw [hu] at h hres
  simp only at h hres
  subst h
  subst hres
  simp only
  constructor
  · constructor
    · intro hacc
      by_contra hc
      rw [if_neg ?_] at hacc
      · exact Bool.false_ne_true (congrArg Prod.fst hacc)
      · exact fun hmem => hc ⟨hmem.1, hmem.2⟩
    · intro hmem
      rw [if_pos ⟨hmem.1, hmem.2⟩]
      unfold Stream.add_segment_info
      rw [if_pos hroom]
  · intro hc
    rw [if_neg (fun hmem => hc ⟨hmem.1, hmem.2⟩)]

/-- Witness for C4 (amended): concrete accepted and rejected resets. -/
theorem claim_C4_rst_validation_witness :
    ∃ s : Stream, Stream.new.set_isn 0 1024 = some s ∧
      ((s.update_offset 100 false).2 = some 100 ∧
        s.segments_info.length < MAX_SEGMENTS_INFO_COUNT) ∧
      (s.handle_rst_packet 100 () =
        (true, { s with segments_info :=
          [{ offset := 100, reverse_acked := s.reverse_acked, extra := (),
             data := SegmentType.Rst }] })) := by
  refine ⟨_, rfl, ⟨?_, ?_⟩, ?_⟩
  · decide
  · decide
  · exact ((claim_C4_rst_validation _ 100 () 100 (by decide) (by decide)).1).mpr (by decide)

/-! ## C8: window scale inference -/

/-- C8: a `Stream` whose `window_limit` came from a 64 KiB handshake window
with scale 0 and `got_window_scale = false` (`c8Start`), receiving a data
packet whose payload ends at absolute offset 200,000 (within the 128 MiB
buffer cap), raises `window_scale` to 2, extends `window_limit` to 262,140
(covering the packet), accepts the payload into the buffer, and records a
`Data` segment-info entry for it. -/
theorem claim_C8_window_scale_inference (d : List Nat) (hlen : d.length = 1000) :
    Stream.new.set_isn 0 65535 = some c8Start ∧
    c8Start.state.window_limit = 65535 ∧ c8Start.window_scale = 0 ∧
    c8Start.got_window_scale = false ∧
    c8Start.handle_data_packet 199000 d () =
      some (true, { c8Mid with
        state := { c8Mid.state with
          buffer := List.replicate 199000 0 ++ d
          received := ⟨[(199000, 1000)], USIZE_MAX⟩ }
        segments_info := [{ offset := 199000, reverse_acked := 0, extra := (), data := SegmentType.Data 1000 false }] }) := by
  refine ⟨by decide, rfl, rfl, rfl, ?_⟩
  have hest : c8Start.estimate_window_scale 200000 = some (true, c8Mid) := by decide
  rw [Stream.handle_data_packet]
  rw [show c8Start.update_offset 199000 true = (c8Start, some 199000) from by decide]
  simp only [hlen]
  norm_num [show c8Start.state.window_limit = 65535 from rfl,
            show c8Start.state.buffer_offset = 0 from rfl,
            show c8Start.got_window_scale = false from rfl,
            MAX_ALLOWED_BUFFER_SIZE]
  rw [hest]
  norm_num [Nat.shiftLeft_eq]
  have hwrite : writeAt (List.replicate 200000 0) 199000 (List.take 1000 d) =
      List.replicate 199000 0 ++ d := by
    unfold writeAt
    norm_num
    simp [hlen]
  have hrecv : c8Mid.state.receive_segment 199000 d =
      some (ReceiveSegmentResult.Received,
        { c8Mid.state with buffer := List.replicate 199000 0 ++ d,
                           received := ⟨[(199000, 1000)], USIZE_MAX⟩ }) := by
    rw [StreamInboundState.receive_segment]
    simp only [hlen]
    norm_num [show c8Mid.state.window_limit = 262140 from rfl,
              show c8Mid.state.buffer_offset = 0 from rfl,
              show c8Mid.state.buffer = [] from rfl]
    rw [show c8Mid.state.received.has_range 199000 200000 = false from by decide]
    norm_num
    rw [show c8Mid.state.received.range_complement 199000 200000 = [(199000, 200000)] from by decide]
    rw [show fillAtBack [] 200000 0 = List.replicate 200000 0 from by
      unfold fillAtBack; exact List.nil_append _]
    rw [copyRanges]
    norm_num [hlen, List.length_replicate]
    rw [hwrite, copyRanges]
    rw [show c8Mid.state.received.insert_range 199000 200000 =
      some (true, (⟨[(199000, 1000)], USIZE_MAX⟩ : RangeSet)) from by decide]
  rw [hrecv]
  norm_num [Stream.add_segment_info, hlen,
    show c8Mid.segments_info = [] from rfl,
    show c8Mid.reverse_acked = 0 from rfl,
    eq_false (by decide : ¬(ReceiveSegmentResult.Received = ReceiveSegmentResult.Duplicate)),
    show (decide (ReceiveSegmentResult.Received = ReceiveSegmentResult.Duplicate)) = false from by decide,
    show (0 : Nat) < 128 <<< 10 from by decide,
    MAX_SEGMENTS_INFO_COUNT]

/-- Witness for C8 at the concrete payload `List.replicate 1000 7`. -/
theorem claim_C8_window_scale_inference_witness :
    (List.replicate 1000 7).length = 1000 ∧
    (Stream.new.set_isn 0 65535 = some c8Start ∧
     c8Start.state.window_limit = 65535 ∧ c8Start.window_scale = 0 ∧
     c8Start.got_window_scale = false ∧
     c8Start.handle_data_packet 199000 (List.replicate 1000 7) () =
       some (true, { c8Mid with
         state := { c8Mid.state with
           buffer := List.replicate 199000 0 ++ List.replicate 1000 7
           received := ⟨[(199000, 1000)], USIZE_MAX⟩ }
         segments_info := [{ offset := 199000, reverse_acked := 0, extra := (), data := SegmentType.Data 1000 false }] })) :=
  ⟨List.length_replicate 1000 7,
   claim_C8_window_scale_inference (List.replicate 1000 7) (List.length_replicate 1000 7)⟩

/-! ## C1: sequence-number wrap -/

set_option maxRecDepth 2000 in
theorem c1_update_value (s : Stream)
    (hs : s.seq_window_start = C1_ISN) (he : s.seq_window_end = 2 ^ 30 - 10000)
    (ho : s.seq_offset = SeqOffset.Initial C1_ISN)
    (k : Nat) (hk : k < 2 ^ 30) :
    (s.update_offset ((C1_ISN + k) % U32_MOD) true).2 = some k := by
  have hmod : (2 ^ 32 - 10000 + k) % 2 ^ 32 =
      if k < 10000 then 2 ^ 32 - 10000 + k else k - 10000 := by
    split <;> omega
  simp only [Stream.update_offset, hs, he, ho, C1_ISN, U32_MOD, wsub32, wadd32,
    SEQ_WINDOW_ADVANCE_THRESHOLD, SEQ_WINDOW_ADVANCE_BY, SEQ_WINDOW_SIZE,
    Nat.shiftLeft_eq, hmod, true_and]
  by_cases hk10 : k < 10000
  · simp only [if_pos hk10]
    rw [if_neg (by omega)]
    rw [if_neg (by omega)]
    rw [if_pos (by omega)]
    rw [if_neg (by omega)]
    dsimp only
    simp only [ho, C1_ISN, SeqOffset.compute_absolute]
    refine congrArg some ?_
    omega
  · simp only [if_neg hk10]
    rw [if_neg (by omega)]
    rw [if_neg (by omega)]
    rw [if_neg (by omega)]
    dsimp only
    simp only [SeqOffset.compute_absolute]
    refine congrArg some ?_
    omega

theorem c1_update_pair (s : Stream)
    (hs : s.seq_window_start = C1_ISN) (he : s.seq_window_end = 2 ^ 30 - 10000)
    (ho : s.seq_offset = SeqOffset.Initial C1_ISN)
    (k : Nat) (hk : k < 2 ^ 30) (hth : k ≤ 2 ^ 29) :
    s.update_offset ((C1_ISN + k) % U32_MOD) true = (s, some k) := by
  have hmod : (2 ^ 32 - 10000 + k) % 2 ^ 32 =
      if k < 10000 then 2 ^ 32 - 10000 + k else k - 10000 := by
    split <;> omega
  simp only [Stream.update_offset, hs, he, ho, C1_ISN, U32_MOD, wsub32, wadd32,
    SEQ_WINDOW_ADVANCE_THRESHOLD, SEQ_WINDOW_ADVANCE_BY, SEQ_WINDOW_SIZE,
    Nat.shiftLeft_eq, hmod, true_and]
  by_cases hk10 : k < 10000
  · simp only [if_pos hk10]
    rw [if_neg (by omega)]
    rw [if_neg (by omega)]
    rw [if_pos (by omega)]
    rw [if_neg (by omega)]
    simp only [ho, C1_ISN, SeqOffset.compute_absolute]
    exact congrArg (fun y => (s, some y)) (by omega)
  · simp only [if_neg hk10]
    rw [if_neg (by omega)]
    rw [if_neg (by omega)]
    rw [if_neg (by omega)]
    rw [if_neg (by omega)]
    simp only [SeqOffset.compute_absolute]
    exact congrArg (fun y => (s, some y)) (by omega)

theorem c1_step1 (d1 : List Nat) (h1 : d1.length = 8192) :
    c1Start.handle_data_packet ((C1_ISN + 0) % U32_MOD) d1 () = some (true, c1S2 d1) := by
  rw [Stream.handle_data_packet]
  rw [c1_update_pair c1Start rfl rfl rfl 0 (by norm_num) (by norm_num)]
  simp only [h1]
  norm_num [show c1Start.state.window_limit = 65535 from rfl]
  have hwrite : writeAt (List.replicate 8192 0) 0 (List.take 8192 d1) = d1 := by
    unfold writeAt
    norm_num
    simp [h1]
  have hrecv : c1Start.state.receive_segment 0 d1 =
      some (ReceiveSegmentResult.Received,
        { c1Start.state with buffer := d1, received := ⟨[(0, 8192)], USIZE_MAX⟩ }) := by
    rw [StreamInboundState.receive_segment]
    simp only [h1]
    norm_num [show c1Start.state.window_limit = 65535 from rfl,
              show c1Start.state.buffer_offset = 0 from rfl,
              show c1Start.state.buffer = ([] : List Nat) from rfl]
    rw [show c1Start.state.received.has_range 0 8192 = false from by decide]
    norm_num
    rw [show c1Start.state.received.range_complement 0 8192 = [(0, 8192)] from by decide]
    rw [show fillAtBack [] 8192 0 = List.replicate 8192 0 from List.nil_append _]
    rw [copyRanges]
    norm_num [h1, List.length_replicate]
    rw [hwrite, copyRanges]
    rw [show c1Start.state.received.insert_range 0 8192 =
      some (true, (⟨[(0, 8192)], USIZE_MAX⟩ : RangeSet)) from by decide]
  rw [hrecv]
  norm_num [Stream.add_segment_info, h1,
    show c1Start.segments_info = [] from rfl,
    show c1Start.reverse_acked = 0 from rfl,
    eq_false (by decide : ¬(ReceiveSegmentResult.Received = ReceiveSegmentResult.Duplicate)),
    show (decide (ReceiveSegmentResult.Received = ReceiveSegmentResult.Duplicate)) = false from by decide,
    show (0 : Nat) < 128 <<< 10 from by decide,
    MAX_SEGMENTS_INFO_COUNT]
  rfl

theorem c1_step2 (d1 d2 : List Nat) (h1 : d1.length = 8192) (h2 : d2.length = 8192) :
    (c1S2 d1).handle_data_packet ((C1_ISN + 8192) % U32_MOD) d2 () =
      some (true, c1S3 d1 d2) := by
  rw [Stream.handle_data_packet]
  rw [c1_update_pair (c1S2 d1) rfl rfl rfl 8192 (by norm_num) (by norm_num)]
  simp only [h2]
  norm_num [show (c1S2 d1).state.window_limit = 65535 from rfl]
  have htake1 : List.take 8192 d1 = d1 := by rw [← h1, List.take_length]
  have htake2 : List.take 8192 d2 = d2 := by rw [← h2, List.take_length]
  have hwrite : writeAt (d1 ++ List.replicate 8192 0) 8192 (List.take 8192 d2) =
      d1 ++ d2 := by
    unfold writeAt
    rw [htake2, h2, List.take_append_eq_append_take, List.drop_append_eq_append_drop,
      htake1, h1]
    norm_num
    omega
  have hrecv : (c1S2 d1).state.receive_segment 8192 d2 =
      some (ReceiveSegmentResult.Received,
        { (c1S2 d1).state with buffer := d1 ++ d2,
                               received := ⟨[(0, 16384)], USIZE_MAX⟩ }) := by
    rw [StreamInboundState.receive_segment]
    simp only [h2]
    norm_num [show (c1S2 d1).state.window_limit = 65535 from rfl,
              show (c1S2 d1).state.buffer_offset = 0 from rfl,
              show (c1S2 d1).state.buffer = d1 from rfl,
              show (c1S2 d1).state.received = (⟨[(0, 8192)], USIZE_MAX⟩ : RangeSet) from rfl, h1]
    rw [show (RangeSet.has_range ⟨[(0, 8192)], USIZE_MAX⟩ 8192 16384) = false from by decide]
    norm_num
    rw [show (RangeSet.range_complement ⟨[(0, 8192)], USIZE_MAX⟩ 8192 16384) = [(8192, 16384)] from by decide]
    rw [show fillAtBack d1 8192 0 = d1 ++ List.replicate 8192 0 from rfl]
    rw [copyRanges]
    norm_num [h2, List.length_append, List.length_replicate, h1]
    rw [hwrite, copyRanges]
    rw [show (RangeSet.insert_range ⟨[(0, 8192)], USIZE_MAX⟩ 8192 16384) =
      some (true, (⟨[(0, 16384)], USIZE_MAX⟩ : RangeSet)) from by decide]
  rw [hrecv]
  norm_num [Stream.add_segment_info, h2,
    show (c1S2 d1).segments_info = [⟨0, 0, (), SegmentType.Data 8192 false⟩] from rfl,
    show (c1S2 d1).reverse_acked = 0 from rfl,
    eq_false (by decide : ¬(ReceiveSegmentResult.Received = ReceiveSegmentResult.Duplicate)),
    show (decide (ReceiveSegmentResult.Received = ReceiveSegmentResult.Duplicate)) = false from by decide,
    show (1 : Nat) < 128 <<< 10 from by decide,
    MAX_SEGMENTS_INFO_COUNT]
  rfl

theorem c1_step3 (d1 d2 d3 : List Nat)
    (h1 : d1.length = 8192) (h2 : d2.length = 8192) (h3 : d3.length = 8192) :
    (c1S3 d1 d2).handle_data_packet ((C1_ISN + 16384) % U32_MOD) d3 () =
      some (true, c1S4 d1 d2 d3) := by
  rw [Stream.handle_data_packet]
  rw [c1_update_pair (c1S3 d1 d2) rfl rfl rfl 16384 (by norm_num) (by norm_num)]
  simp only [h3]
  norm_num [show (c1S3 d1 d2).state.window_limit = 65535 from rfl]
  have htakeA : List.take 16384 (d1 ++ d2) = d1 ++ d2 :=
    List.take_of_length_le (by rw [List.length_append, h1, h2])
  have htake3 : List.take 8192 d3 = d3 := by rw [← h3, List.take_length]
  have hdropA : List.drop 24576 (d1 ++ d2) = [] :=
    List.drop_eq_nil_of_le (by rw [List.length_append, h1, h2]; omega)
  have hwrite : writeAt (d1 ++ (d2 ++ List.replicate 8192 0)) 16384 (List.take 8192 d3) =
      d1 ++ (d2 ++ d3) := by
    have e1 : List.take 16384 d1 = d1 := List.take_of_length_le (by omega)
    have e2 : List.take 8192 d2 = d2 := List.take_of_length_le (by omega)
    have e3 : List.drop 24576 d1 = [] := List.drop_eq_nil_of_le (by omega)
    have e4 : List.drop 16384 d2 = [] := List.drop_eq_nil_of_le (by omega)
    unfold writeAt
    simp only [htake3, h3, List.take_append_eq_append_take, List.drop_append_eq_append_drop,
      h1, h2]
    norm_num [e1, e2, e3, e4]
  have hrecv : (c1S3 d1 d2).state.receive_segment 16384 d3 =
      some (ReceiveSegmentResult.Received,
        { (c1S3 d1 d2).state with buffer := d1 ++ (d2 ++ d3),
                                  received := ⟨[(0, 24576)], USIZE_MAX⟩ }) := by
    rw [StreamInboundState.receive_segment]
    simp only [h3]
    norm_num [show (c1S3 d1 d2).state.window_limit = 65535 from rfl,
              show (c1S3 d1 d2).state.buffer_offset = 0 from rfl,
              show (c1S3 d1 d2).state.buffer = d1 ++ d2 from rfl,
              show (c1S3 d1 d2).state.received = (⟨[(0, 16384)], USIZE_MAX⟩ : RangeSet) from rfl,
              List.length_append, h1, h2]
    rw [show (RangeSet.has_range ⟨[(0, 16384)], USIZE_MAX⟩ 16384 24576) = false from by decide]
    norm_num
    rw [show (RangeSet.range_complement ⟨[(0, 16384)], USIZE_MAX⟩ 16384 24576) = [(16384, 24576)] from by decide]
    rw [show fillAtBack (d1 ++ d2) 8192 0 = (d1 ++ d2) ++ List.replicate 8192 0 from rfl]
    rw [copyRanges]
    norm_num [h3, List.length_append, List.length_replicate, h1, h2]
    rw [hwrite, copyRanges]
    rw [show (RangeSet.insert_range ⟨[(0, 16384)], USIZE_MAX⟩ 16384 24576) =
      some (true, (⟨[(0, 24576)], USIZE_MAX⟩ : RangeSet)) from by decide]
  rw [hrecv]
  norm_num [Stream.add_segment_info, h3,
    show (c1S3 d1 d2).segments_info = [⟨8192, 0, (), SegmentType.Data 8192 false⟩,
      ⟨0, 0, (), SegmentType.Data 8192 false⟩] from rfl,
    show (c1S3 d1 d2).reverse_acked = 0 from rfl,
    eq_false (by decide : ¬(ReceiveSegmentResult.Received = ReceiveSegmentResult.Duplicate)),
    show (decide (ReceiveSegmentResult.Received = ReceiveSegmentResult.Duplicate)) = false from by decide,
    show (2 : Nat) < 128 <<< 10 from by decide,
    MAX_SEGMENTS_INFO_COUNT]
  simp [c1S4, c1S3, c1Start, List.append_assoc]

/-- C1: a `Stream` initialized with ISN `2^32 - 10000` (`c1Start`), fed three
8 KiB data segments at sequence numbers `ISN`, `ISN + 8192` and `ISN + 16384`
(mod `2^32`, traversing the 32-bit rollover) yields a contiguous reassembled
stream: the buffer equals `d1 ++ d2 ++ d3`, so for every `k` in the fed range
the byte at absolute offset `k` equals the byte that was written at offset
`k`; moreover `update_offset` maps every in-window sequence number
`(ISN + k) % 2^32` to the correct 64-bit absolute offset `k` across the
wrap. -/
theorem claim_C1_sequence_wrap (d1 d2 d3 : List Nat)
    (h1 : d1.length = 8192) (h2 : d2.length = 8192) (h3 : d3.length = 8192) :
    Stream.new.set_isn C1_ISN 65535 = some c1Start ∧
    (∀ k, k < 2 ^ 30 → (c1Start.update_offset ((C1_ISN + k) % U32_MOD) true).2 = some k) ∧
    c1Start.handle_data_packet ((C1_ISN + 0) % U32_MOD) d1 () = some (true, c1S2 d1) ∧
    (c1S2 d1).handle_data_packet ((C1_ISN + 8192) % U32_MOD) d2 () = some (true, c1S3 d1 d2) ∧
    (c1S3 d1 d2).handle_data_packet ((C1_ISN + 16384) % U32_MOD) d3 () =
      some (true, c1S4 d1 d2 d3) ∧
    (c1S4 d1 d2 d3).state.buffer_offset = 0 ∧
    (c1S4 d1 d2 d3).state.buffer = d1 ++ d2 ++ d3 ∧
    (c1S4 d1 d2 d3).state.received.map = [(0, 24576)] ∧
    (∀ k, k < 24576 → (c1S4 d1 d2 d3).state.byteAt k = (d1 ++ d2 ++ d3)[k]?) :=
  ⟨by decide, fun k hk => c1_update_value c1Start rfl rfl rfl k hk,
   c1_step1 d1 h1, c1_step2 d1 d2 h1 h2, c1_step3 d1 d2 d3 h1 h2 h3,
   rfl, rfl, rfl, fun k _ => by simp [StreamInboundState.byteAt, c1S4, c1Start]⟩

/-- Witness for C1 at three concrete 8 KiB payloads. -/
theorem claim_C1_sequence_wrap_witness :
    ((List.replicate 8192 1).length = 8192 ∧ (List.replicate 8192 2).length = 8192 ∧
      (List.replicate 8192 3).length = 8192) ∧
    (Stream.new.set_isn C1_ISN 65535 = some c1Start ∧
     (∀ k, k < 2 ^ 30 → (c1Start.update_offset ((C1_ISN + k) % U32_MOD) true).2 = some k) ∧
     c1Start.handle_data_packet ((C1_ISN + 0) % U32_MOD) (List.replicate 8192 1) () =
       some (true, c1S2 (List.replicate 8192 1)) ∧
     (c1S2 (List.replicate 8192 1)).handle_data_packet ((C1_ISN + 8192) % U32_MOD)
       (List.replicate 8192 2) () = some (true, c1S3 (List.replicate 8192 1) (List.replicate 8192 2)) ∧
     (c1S3 (List.replicate 8192 1) (List.replicate 8192 2)).handle_data_packet
       ((C1_ISN + 16384) % U32_MOD) (List.replicate 8192 3) () =
       some (true, c1S4 (List.replicate 8192 1) (List.replicate 8192 2) (List.replicate 8192 3)) ∧
     (c1S4 (List.replicate 8192 1) (List.replicate 8192 2) (List.replicate 8192 3)).state.buffer_offset = 0 ∧
     (c1S4 (List.replicate 8192 1) (List.replicate 8192 2) (List.replicate 8192 3)).state.buffer =
       List.replicate 8192 1 ++ List.replicate 8192 2 ++ List.replicate 8192 3 ∧
     (c1S4 (List.replicate 8192 1) (List.replicate 8192 2) (List.replicate 8192 3)).state.received.map = [(0, 24576)] ∧
     (∀ k, k < 24576 →
       (c1S4 (List.replicate 8192 1) (List.replicate 8192 2) (List.replicate 8192 3)).state.byteAt k =
         (List.replicate 8192 1 ++ List.replicate 8192 2 ++ List.replicate 8192 3)[k]?)) :=
  ⟨⟨List.length_replicate 8192 1, List.length_replicate 8192 2, List.length_replicate 8192 3⟩,
   claim_C1_sequence_wrap (List.replicate 8192 1) (List.replicate 8192 2) (List.replicate 8192 3)
     (List.length_replicate 8192 1) (List.length_replicate 8192 2) (List.length_replicate 8192 3)⟩

/-! ## C2: receive_segment error paths mutate nothing -/

/-- An entry returned by `lastLE` is a member of the list with key within the bound. -/
theorem lastLE_mem {l : List (Nat × Nat)} {x : Nat} {p : Nat × Nat}
    (h : lastLE l x = some p) : p ∈ l ∧ p.1 ≤ x := by
  induction l with
  | nil => simp [lastLE] at h
  | cons q rest ih =>
    rw [lastLE] at h
    by_cases hq : q.1 ≤ x
    · rw [if_pos hq] at h
      cases hr : lastLE rest x with
      | some r =>
        rw [hr] at h
        cases h
        rcases ih hr with ⟨hm, hx⟩
        exact ⟨List.mem_cons_of_mem _ hm, hx⟩
      | none =>
        rw [hr] at h
        cases h
        exact ⟨List.mem_cons_self _ _, hq⟩
    · rw [if_neg hq] at h
      rcases ih h with ⟨hm, hx⟩
      exact ⟨List.mem_cons_of_mem _ hm, hx⟩

/-- When `lastLE` finds nothing, every key exceeds the bound. -/
theorem lastLE_none {l : List (Nat × Nat)} {x : Nat} (h : lastLE l x = none) :
    ∀ p ∈ l, x < p.1 := by
  induction l with
  | nil => simp
  | cons q rest ih =>
    rw [lastLE] at h
    by_cases hq : q.1 ≤ x
    · rw [if_pos hq] at h
      cases hr : lastLE rest x with
      | some r => rw [hr] at h; cases h
      | none => rw [hr] at h; cases h
    · rw [if_neg hq] at h
      intro p hp
      rcases List.mem_cons.mp hp with hpq | hpr
      · subst hpq; omega
      · exact ih h p hpr

/-- On a sorted map, `lastLE` returns the largest key within the bound. -/
theorem lastLE_maximal {l : List (Nat × Nat)} {x : Nat} {p : Nat × Nat}
    (hsort : l.Pairwise (fun a b => a.1 + a.2 < b.1))
    (h : lastLE l x = some p) : ∀ q ∈ l, q.1 ≤ x → q.1 ≤ p.1 := by
  induction l with
  | nil => simp [lastLE] at h
  | cons q0 rest ih =>
    rw [lastLE] at h
    rcases List.pairwise_cons.mp hsort with ⟨hq0, hrest⟩
    by_cases hq : q0.1 ≤ x
    · rw [if_pos hq] at h
      cases hr : lastLE rest x with
      | some r =>
        rw [hr] at h
        cases h
        intro q hqm hqx
        rcases List.mem_cons.mp hqm with hq' | hq'
        · subst hq'
          have := hq0 p (lastLE_mem hr).1
          omega
        · exact ih hrest hr q hq' hqx
      | none =>
        rw [hr] at h
        cases h
        intro q hqm hqx
        rcases List.mem_cons.mp hqm with hq' | hq'
        · subst hq'; omega
        · have := lastLE_none hr q hq'
          omega
    · rw [if_neg hq] at h
      intro q hqm hqx
      rcases List.mem_cons.mp hqm with hq' | hq'
      · subst hq'; omega
      · exact ih hrest h q hq' hqx

/-- Two distinct members of a pairwise-ordered list are related one way or the other. -/
theorem pairwise_or {α : Type} {R : α → α → Prop} {l : List α} (hs : l.Pairwise R) :
    ∀ x ∈ l, ∀ y ∈ l, x ≠ y → R x y ∨ R y x := by
  induction l with
  | nil => simp
  | cons a rest ih =>
    rcases List.pairwise_cons.mp hs with ⟨ha, hr⟩
    intro x hx y hy hne
    rcases List.mem_cons.mp hx with hx' | hx' <;> rcases List.mem_cons.mp hy with hy' | hy'
    · subst hx'; subst hy'; exact absurd rfl hne
    · subst hx'; exact Or.inl (ha y hy')
    · subst hy'; exact Or.inr (ha x hx')
    · exact ih hr x hx' y hy' hne

/-- `has_range` on a well-formed `RangeSet` decides exactly semantic containment
of a non-empty range. -/
theorem has_range_iff {rs : RangeSet} {a b : Nat} (hWF : WF rs.map) (hab : a < b) :
    rs.has_range a b = true ↔ ∀ v, a ≤ v → v < b → covers rs.map v := by
  constructor
  · intro h v hav hvb
    unfold RangeSet.has_range at h
    cases hl : lastLE rs.map a with
    | none => rw [hl] at h; cases h
    | some p =>
      rw [hl] at h
      rcases p with ⟨s, len⟩
      simp only [decide_eq_true_eq] at h
      rcases lastLE_mem hl with ⟨hm, hx⟩
      exact ⟨(s, len), hm, by omega, by omega⟩
  · intro hcov
    rcases hcov a le_rfl hab with ⟨q, hq, hq1, hq2⟩
    cases hl : lastLE rs.map a with
    | none => exact absurd hq1 (by have := lastLE_none hl q hq; omega)
    | some p =>
      rcases lastLE_mem hl with ⟨hpm, hpx⟩
      have hqp : q.1 ≤ p.1 := lastLE_maximal hWF.1 hl q hq hq1
      -- p covers a
      have hpa : p.1 ≤ a ∧ a < p.1 + p.2 := by
        by_cases hqe : q = p
        · subst hqe; exact ⟨hq1, hq2⟩
        · rcases pairwise_or hWF.1 q hq p hpm hqe with hlt | hlt
          · constructor
            · omega
            · -- q before p: q.1 + q.2 < p.1 ≤ ... but q covers a and q.1 ≤ p.1... 
              omega
          · -- p before q: p.1 + p.2 < q.1 ≤ a... then p.2 = 0 contradiction? p.1+p.2 < q.1 ≤ p.1
            omega
      -- now show p.1 + p.2 ≥ b
      unfold RangeSet.has_range
      rw [hl]
      simp only [decide_eq_true_eq]
      by_contra hc
      push_neg at hc
      have hv : a ≤ p.1 + p.2 := by omega
      have hv2 : p.1 + p.2 < b := by omega
      rcases hcov (p.1 + p.2) hv hv2 with ⟨r, hr, hr1, hr2⟩
      by_cases hre : r = p
      · subst hre; omega
      · rcases pairwise_or hWF.1 r hr p hpm hre with hlt | hlt
        · -- r before p: r.1 + r.2 < p.1 ≤ a ≤ p.1+p.2 < r.1 + r.2, contra
          omega
        · -- p before r: p.1 + p.2 < r.1 ≤ p.1 + p.2, contra
          omega

/-- C2: `receive_segment` returns `ExceedsWindow` and leaves the whole state
unchanged whenever `offset + len(data) > window_limit`; and whenever the
(non-empty) range `[offset, offset + len)` is already fully contained in
`received` (and does not exceed the window), it returns `Duplicate` and
leaves the state unchanged. (Returning `some (r, st)` with the original `st`
is the no-mutation statement: buffer, buffer_offset, received, final_offset
and window_limit are all fields of `st`.) -/
theorem claim_C2_receive_no_mutation (st : StreamInboundState) (offset : Nat) (data : List Nat)
    (hWF : WF st.received.map) :
    (offset + data.length > st.window_limit →
      st.receive_segment offset data = some (ReceiveSegmentResult.ExceedsWindow, st)) ∧
    (offset + data.length ≤ st.window_limit → 0 < data.length →
      (∀ v, offset ≤ v → v < offset + data.length → covers st.received.map v) →
      st.receive_segment offset data = some (ReceiveSegmentResult.Duplicate, st)) := by
  constructor
  · intro h
    rw [StreamInboundState.receive_segment, if_pos h]
  · intro hle hpos hcov
    have hhr : st.received.has_range offset (offset + data.length) = true :=
      (has_range_iff hWF (by omega)).mpr hcov
    rw [StreamInboundState.receive_segment, if_neg (by omega), if_pos hhr]

/-- Witness for C2 on a concrete state: a fully covered segment is a
`Duplicate`, an out-of-window segment is `ExceedsWindow`, both without
mutation. -/
theorem claim_C2_receive_no_mutation_witness :
    WF ({ buffer := [1, 2, 3, 4, 5], buffer_offset := 0,
          received := ⟨[(0, 5)], USIZE_MAX⟩, message_offsets := [],
          is_reliable := true, window_limit := 10,
          final_offset := none } : StreamInboundState).received.map ∧
    StreamInboundState.receive_segment
      { buffer := [1, 2, 3, 4, 5], buffer_offset := 0,
        received := ⟨[(0, 5)], USIZE_MAX⟩, message_offsets := [],
        is_reliable := true, window_limit := 10, final_offset := none } 0 [9, 9, 9] =
      some (ReceiveSegmentResult.Duplicate,
        { buffer := [1, 2, 3, 4, 5], buffer_offset := 0,
          received := ⟨[(0, 5)], USIZE_MAX⟩, message_offsets := [],
          is_reliable := true, window_limit := 10, final_offset := none }) ∧
    StreamInboundState.receive_segment
      { buffer := [1, 2, 3, 4, 5], buffer_offset := 0,
        received := ⟨[(0, 5)], USIZE_MAX⟩, message_offsets := [],
        is_reliable := true, window_limit := 10, final_offset := none } 8 [9, 9, 9] =
      some (ReceiveSegmentResult.ExceedsWindow,
        { buffer := [1, 2, 3, 4, 5], buffer_offset := 0,
          received := ⟨[(0, 5)], USIZE_MAX⟩, message_offsets := [],
          is_reliable := true, window_limit := 10, final_offset := none }) := by
  have hWF : WF ([(0, 5)] : List (Nat × Nat)) := by
    constructor
    · exact List.pairwise_singleton _ _
    · intro p hp
      rw [List.mem_singleton] at hp
      subst hp
      omega
  refine ⟨hWF, ?_, ?_⟩
  · refine (claim_C2_receive_no_mutation _ 0 [9, 9, 9] hWF).2 (by simp) (by simp) ?_
    intro v h1 h2
    simp only [List.length_cons, List.length_nil] at h2
    exact ⟨(0, 5), by simp, by omega, by omega⟩
  · exact (claim_C2_receive_no_mutation _ 8 [9, 9, 9] hWF).1 (by simp)

/-! ## C10: empty-segment panic -/

/-- Complement of the empty range at an uncovered point is empty. -/
theorem complement_empty_at (rs : RangeSet) (o : Nat)
    (h : rs.has_range o o = false) : rs.range_complement o o = [] := by
  have hiter : rs.iter_range o o = [] := by
    unfold RangeSet.iter_range
    have hfil : rs.map.filter (fun p => decide (o ≤ p.1 ∧ p.1 < o)) = [] := by
      rw [List.filter_eq_nil_iff]
      intro p hp
      simp only [decide_eq_true_eq]
      omega
    have hfirst : (if o = 0 then 0 else
        match lastLE rs.map o with
        | some (prev_start, len) => if prev_start + len > o then prev_start else o
        | none => o) = o := by
      by_cases ho : o = 0
      · simp [ho]
      · rw [if_neg ho]
        unfold RangeSet.has_range at h
        cases hl : lastLE rs.map o with
        | none => rfl
        | some p =>
          rw [hl] at h
          rcases p with ⟨s, len⟩
          simp only [decide_eq_false_iff_not] at h
          simp only
          rw [if_neg (by omega)]
    rw [hfirst]
    simp only [hfil, List.map_nil]
  unfold RangeSet.range_complement
  rw [hiter]
  unfold complementLoop
  rw [if_neg (by omega)]

theorem receive_empty_none (st : StreamInboundState) (o : Nat)
    (hwin : ¬(o + ([] : List Nat).length > st.window_limit))
    (hhr : st.received.has_range o (o + ([] : List Nat).length) = false) :
    st.receive_segment o [] = none := by
  rw [StreamInboundState.receive_segment, if_neg hwin, if_neg (by rw [hhr]; exact Bool.false_ne_true)]
  by_cases hbo : o + ([] : List Nat).length < st.buffer_offset
  · rw [if_pos hbo]
  · rw [if_neg hbo]
    have hc : st.received.range_complement o (o + ([] : List Nat).length) = [] := by
      simpa using complement_empty_at st.received o (by simpa using hhr)
    rw [hc]
    simp only [copyRanges]
    rw [RangeSet.insert_range, if_pos (by simp)]

/-- C10: calling `receive_segment` with an empty data slice at an offset
`o ≤ window_limit`, when no stored range of `received` satisfies
`start ≤ o ∧ end ≥ o`, panics (modelled as `none`) via the zero-length
`insert_range` rejection instead of returning a result; and the empty-segment
call only returns normally when the result is `Duplicate` or `ExceedsWindow`. -/
theorem claim_C10_empty_segment_panic (st : StreamInboundState) (o : Nat) :
    (o ≤ st.window_limit →
      (∀ p ∈ st.received.map, ¬(p.1 ≤ o ∧ o ≤ p.1 + p.2)) →
      st.receive_segment o [] = none) ∧
    (∀ r st', st.receive_segment o [] = some (r, st') →
      r = ReceiveSegmentResult.Duplicate ∨ r = ReceiveSegmentResult.ExceedsWindow) := by
  constructor
  · intro hwin hnc
    apply receive_empty_none
    · simp; omega
    · unfold RangeSet.has_range
      cases hl : lastLE st.received.map o with
      | none => rfl
      | some p =>
        rcases lastLE_mem hl with ⟨hm, hx⟩
        have := hnc p hm
        simp only [decide_eq_false_iff_not]
        omega
  · intro r st' h
    by_cases hwin : o + ([] : List Nat).length > st.window_limit
    · rw [StreamInboundState.receive_segment, if_pos hwin] at h
      cases h
      exact Or.inr rfl
    · by_cases hhr : st.received.has_range o (o + ([] : List Nat).length) = true
      · rw [StreamInboundState.receive_segment, if_neg hwin, if_pos hhr] at h
        cases h
        exact Or.inl rfl
      · rw [receive_empty_none st o hwin (Bool.not_eq_true _ ▸ hhr)] at h
        cases h

/-- Witness for C10 on a concrete state: an empty segment at offset 7 with
`received = {[0, 5)}` panics. -/
theorem claim_C10_empty_segment_panic_witness :
    (7 ≤ (10 : Nat) ∧
      (∀ p ∈ ([(0, 5)] : List (Nat × Nat)), ¬(p.1 ≤ 7 ∧ 7 ≤ p.1 + p.2))) ∧
    StreamInboundState.receive_segment
      { buffer := [1, 2, 3, 4, 5], buffer_offset := 0,
        received := ⟨[(0, 5)], USIZE_MAX⟩, message_offsets := [],
        is_reliable := true, window_limit := 10, final_offset := none } 7 [] = none :=
  ⟨⟨by omega, by decide⟩,
    (claim_C10_empty_segment_panic _ 7).1 (by decide) (by decide)⟩


theorem writeAt_length {buf : List Nat} {i : Nat} {d : List Nat}
    (h : i + d.length ≤ buf.length) : (writeAt buf i d).length = buf.length := by
  simp [writeAt, List.length_append, List.length_take, List.length_drop]
  omega

theorem writeAt_getElem_outside {buf : List Nat} {i : Nat} {d : List Nat} {j : Nat}
    (hle : i + d.length ≤ buf.length) (h : j < i ∨ i + d.length ≤ j) :
    (writeAt buf i d)[j]? = buf[j]? := by
  unfold writeAt
  rcases h with h | h
  · rw [List.getElem?_append_left
      (by rw [List.length_append, List.length_take]; omega)]
    rw [List.getElem?_append_left (by rw [List.length_take]; omega)]
    rw [List.getElem?_take, if_pos h]
  · rw [List.getElem?_append_right
      (by rw [List.length_append, List.length_take]; omega)]
    rw [List.getElem?_drop]
    congr 1
    rw [List.length_append, List.length_take]
    omega

theorem writeAt_getElem_inside {buf : List Nat} {i : Nat} {d : List Nat} {j : Nat}
    (hle : i + d.length ≤ buf.length) (h1 : i ≤ j) (h2 : j < i + d.length) :
    (writeAt buf i d)[j]? = d[j - i]? := by
  unfold writeAt
  rw [List.getElem?_append_left
    (by rw [List.length_append, List.length_take]; omega)]
  rw [List.getElem?_append_right (by rw [List.length_take]; omega)]
  congr 1
  rw [List.length_take]
  omega

theorem copyRanges_spec (offset : Nat) (data : List Nat) :
    ∀ (rs : List (Nat × Nat)) (buf : List Nat),
    (∀ r ∈ rs, offset ≤ r.1 ∧ r.1 ≤ r.2 ∧ r.2 ≤ offset + data.length ∧ r.2 ≤ buf.length) →
    ∃ buf', copyRanges offset 0 data rs buf = some buf' ∧
      buf'.length = buf.length ∧
      ∀ i, (∀ r ∈ rs, i < r.1 ∨ r.2 ≤ i) → buf'[i]? = buf[i]? := by
  intro rs
  induction rs with
  | nil =>
    intro buf _
    exact ⟨buf, rfl, rfl, fun i _ => rfl⟩
  | cons r rest ih =>
    intro buf hc
    rcases r with ⟨cs, ce⟩
    rcases hc (cs, ce) (List.mem_cons_self _ _) with ⟨h1, h2, h3, h4⟩
    have hslice : ((data.drop (cs - offset)).take (ce - cs)).length ≤ ce - cs := by
      rw [List.length_take]
      omega
    have hwl : cs - 0 + ((data.drop (cs - offset)).take (ce - cs)).length ≤ buf.length := by
      omega
    obtain ⟨buf', heq, hlen, hout⟩ := ih (writeAt buf (cs - 0) ((data.drop (cs - offset)).take (ce - cs)))
      (by
        intro q hq
        rcases hc q (List.mem_cons_of_mem _ hq) with ⟨g1, g2, g3, g4⟩
        rw [writeAt_length hwl]
        exact ⟨g1, g2, g3, g4⟩)
    refine ⟨buf', ?_, ?_, ?_⟩
    · rw [copyRanges]
      rw [if_neg (by omega)]
      rw [if_neg (by omega)]
      rw [if_neg (by omega)]
      exact heq
    · rw [hlen, writeAt_length hwl]
    · intro i hi
      rcases hi (cs, ce) (List.mem_cons_self _ _) with hlt | hge
      · rw [hout i (fun q hq => hi q (List.mem_cons_of_mem _ hq))]
        exact writeAt_getElem_outside hwl (Or.inl (by omega))
      · rw [hout i (fun q hq => hi q (List.mem_cons_of_mem _ hq))]
        exact writeAt_getElem_outside hwl (Or.inr (by omega))

theorem c3_first (W o1 : Nat) (d1 : List Nat) (hn1 : 0 < d1.length)
    (hw1 : o1 + d1.length ≤ W) :
    (StreamInboundState.new W true).receive_segment o1 d1 =
      some (ReceiveSegmentResult.Received, c3State1 W o1 d1) := by
  unfold c3State1
  have hhr : RangeSet.has_range ⟨[], USIZE_MAX⟩ o1 (o1 + d1.length) = false := rfl
  have hcompl : RangeSet.range_complement ⟨[], USIZE_MAX⟩ o1 (o1 + d1.length) =
      [(o1, o1 + d1.length)] := by
    unfold RangeSet.range_complement RangeSet.iter_range
    simp only [List.filter_nil, List.map_nil]
    unfold complementLoop
    rw [if_pos (by omega)]
  have hsl : (d1.drop (o1 - o1)).take (o1 + d1.length - o1) = d1 := by
    rw [Nat.sub_self, List.drop_zero, Nat.add_sub_cancel_left, List.take_length]
  rw [StreamInboundState.receive_segment]
  simp only [show (StreamInboundState.new W true).window_limit = W from rfl,
    show (StreamInboundState.new W true).buffer_offset = 0 from rfl,
    show (StreamInboundState.new W true).buffer = [] from rfl,
    show (StreamInboundState.new W true).received = (⟨[], USIZE_MAX⟩ : RangeSet) from rfl]
  rw [if_neg (by omega)]
  rw [if_neg (by rw [hhr]; exact Bool.false_ne_true)]
  rw [if_neg (by omega)]
  rw [hcompl]
  rw [if_pos (by simp; omega)]
  rw [copyRanges]
  rw [if_neg (by omega)]
  rw [if_neg (by omega)]
  rw [if_neg (by simp [fillAtBack])]
  rw [copyRanges]
  rw [RangeSet.insert_range, if_neg (by omega)]
  rw [show lastLE ([] : List (Nat × Nat)) (o1 + d1.length) = none from rfl]
  unfold RangeSet._max_checked_insert
  rw [if_neg (by simp [USIZE_MAX])]
  unfold RangeSet._direct_insert
  simp only [mapInsert, hsl]
  simp only [fillAtBack, List.nil_append, List.length_nil, Nat.sub_zero]
  rw [Nat.add_sub_cancel_left]

theorem lastLE_single (s l x : Nat) :
    lastLE [(s, l)] x = if s ≤ x then some (s, l) else none := by
  simp only [lastLE]

theorem c3_second (W o1 o2 : Nat) (d1 d2 : List Nat)
    (hw1 : o1 + d1.length ≤ W) (hw2 : o2 + d2.length ≤ W)
    (hov : max o1 o2 < min (o1 + d1.length) (o2 + d2.length)) :
    ∃ r2 st2,
      (c3State1 W o1 d1).receive_segment o2 d2 = some (r2, st2) ∧
      st2.buffer_offset = 0 ∧
      (∀ r ∈ (⟨[(o1, d1.length)], USIZE_MAX⟩ : RangeSet).range_complement o2 (o2 + d2.length),
        ∀ v, r.1 ≤ v → v < r.2 → ¬ covers [(o1, d1.length)] v) ∧
      (∀ v, max o1 o2 ≤ v → v < min (o1 + d1.length) (o2 + d2.length) →
        st2.buffer[v]? = d1[v - o1]?) := by
  have hn1 : 0 < d1.length := by omega
  have hn2 : 0 < d2.length := by omega
  have hb : (writeAt (List.replicate (o1 + d1.length) 0) o1 d1).length = o1 + d1.length := by
    rw [writeAt_length (by rw [List.length_replicate]), List.length_replicate]
  have hbyte : ∀ v, o1 ≤ v → v < o1 + d1.length →
      (writeAt (List.replicate (o1 + d1.length) 0) o1 d1)[v]? = d1[v - o1]? := by
    intro v h1 h2
    exact writeAt_getElem_inside (by rw [List.length_replicate]) h1 h2
  have hfil : List.filter (fun p => decide (o1 ≤ p.1 ∧ p.1 < o2 + d2.length))
      [(o1, d1.length)] = [(o1, d1.length)] := by
    simp only [List.filter_cons, List.filter_nil]
    rw [if_pos (by simp only [decide_eq_true_eq]; show o1 ≤ o1 ∧ o1 < o2 + d2.length; omega)]
  have hfil2 : o2 ≤ o1 → List.filter (fun p => decide (o2 ≤ p.1 ∧ p.1 < o2 + d2.length))
      [(o1, d1.length)] = [(o1, d1.length)] := by
    intro h21
    simp only [List.filter_cons, List.filter_nil]
    rw [if_pos (by simp only [decide_eq_true_eq]; show o2 ≤ o1 ∧ o1 < o2 + d2.length; omega)]
  have hfil0 : o1 < 0 + d2.length → List.filter (fun p => decide (0 ≤ p.1 ∧ p.1 < 0 + d2.length))
      [(o1, d1.length)] = [(o1, d1.length)] := by
    intro h1d
    simp only [List.filter_cons, List.filter_nil]
    rw [if_pos (by simp only [decide_eq_true_eq]; show 0 ≤ o1 ∧ o1 < 0 + d2.length; omega)]
  have hiter : RangeSet.iter_range ⟨[(o1, d1.length)], USIZE_MAX⟩ o2 (o2 + d2.length) =
      [(o1, o1 + d1.length)] := by
    simp only [RangeSet.iter_range]
    by_cases h0 : o2 = 0
    · simp only [if_pos h0]
      subst h0
      simp only [hfil0 (by omega), List.map_cons, List.map_nil]
    · simp only [if_neg h0, lastLE_single]
      by_cases h12 : o1 ≤ o2
      · simp only [if_pos h12]
        simp only [show (if o1 + d1.length > o2 then o1 else o2) = o1 from if_pos (by omega)]
        simp only [hfil, List.map_cons, List.map_nil]
      · simp only [if_neg h12]
        simp only [hfil2 (by omega), List.map_cons, List.map_nil]
  have hcompl : (⟨[(o1, d1.length)], USIZE_MAX⟩ : RangeSet).range_complement o2 (o2 + d2.length) =
      (if o1 ≤ o2 then [] else [(o2, o1)]) ++
      (if o1 + d1.length < o2 + d2.length then [(o1 + d1.length, o2 + d2.length)] else []) := by
    simp only [RangeSet.range_complement, hiter, complementLoop]
    by_cases h12 : o1 ≤ o2
    · simp only [if_pos h12, List.nil_append]
    · simp only [if_neg h12, List.singleton_append]
  have hdisj : ∀ r ∈ (⟨[(o1, d1.length)], USIZE_MAX⟩ : RangeSet).range_complement o2
      (o2 + d2.length), ∀ v, r.1 ≤ v → v < r.2 → ¬ covers [(o1, d1.length)] v := by
    rw [hcompl]
    intro r hr v h1 h2 hcv
    obtain ⟨p, hp, hp1, hp2⟩ := hcv
    rw [List.mem_singleton] at hp
    subst hp
    have hp1' : o1 ≤ v := hp1
    have hp2' : v < o1 + d1.length := hp2
    rcases List.mem_append.mp hr with hr' | hr'
    · split at hr'
      · simp at hr'
      · rw [List.mem_singleton] at hr'
        subst hr'
        have h2' : v < o1 := h2
        omega
    · split at hr'
      · rw [List.mem_singleton] at hr'
        subst hr'
        have h1' : o1 + d1.length ≤ v := h1
        omega
      · simp at hr'
  by_cases hcov : o1 ≤ o2 ∧ o2 + d2.length ≤ o1 + d1.length
  · -- segment fully covered: returns Duplicate, state untouched
    have hhrT : RangeSet.has_range ⟨[(o1, d1.length)], USIZE_MAX⟩ o2 (o2 + d2.length) = true := by
      simp only [RangeSet.has_range, lastLE_single, if_pos hcov.1, decide_eq_true_eq]
      omega
    refine ⟨ReceiveSegmentResult.Duplicate, c3State1 W o1 d1, ?_, rfl, hdisj, ?_⟩
    · rw [StreamInboundState.receive_segment]
      simp only [show (c3State1 W o1 d1).window_limit = W from rfl,
        show (c3State1 W o1 d1).received = (⟨[(o1, d1.length)], USIZE_MAX⟩ : RangeSet) from rfl]
      rw [if_neg (by omega), if_pos hhrT]
    · intro v h1 h2
      show (writeAt (List.replicate (o1 + d1.length) 0) o1 d1)[v]? = d1[v - o1]?
      exact hbyte v (by omega) (by omega)
  · -- segment not covered: returns Received
    have hhr : RangeSet.has_range ⟨[(o1, d1.length)], USIZE_MAX⟩ o2 (o2 + d2.length) = false := by
      simp only [RangeSet.has_range, lastLE_single]
      by_cases h12 : o1 ≤ o2
      · simp only [if_pos h12, decide_eq_false_iff_not]
        omega
      · simp only [if_neg h12]
    have hbufeq : (if o2 + d2.length - 0 > (writeAt (List.replicate (o1 + d1.length) 0) o1 d1).length
        then fillAtBack (writeAt (List.replicate (o1 + d1.length) 0) o1 d1)
          (o2 + d2.length - 0 - (writeAt (List.replicate (o1 + d1.length) 0) o1 d1).length) 0
        else writeAt (List.replicate (o1 + d1.length) 0) o1 d1) =
        writeAt (List.replicate (o1 + d1.length) 0) o1 d1 ++
          List.replicate (o2 + d2.length - (o1 + d1.length)) 0 := by
      rw [hb]
      split
      · unfold fillAtBack
        rw [Nat.sub_zero]
      · rw [show o2 + d2.length - (o1 + d1.length) = 0 by omega, List.replicate_zero,
          List.append_nil]
    obtain ⟨buf', hceq, hclen, hcout⟩ := copyRanges_spec o2 d2
      ((if o1 ≤ o2 then [] else [(o2, o1)]) ++
       (if o1 + d1.length < o2 + d2.length then [(o1 + d1.length, o2 + d2.length)] else []))
      (writeAt (List.replicate (o1 + d1.length) 0) o1 d1 ++
        List.replicate (o2 + d2.length - (o1 + d1.length)) 0)
      (by
        have hblen : (writeAt (List.replicate (o1 + d1.length) 0) o1 d1 ++
            List.replicate (o2 + d2.length - (o1 + d1.length)) 0).length =
            o1 + d1.length + (o2 + d2.length - (o1 + d1.length)) := by
          rw [List.length_append, hb, List.length_replicate]
        intro r hr
        rw [hblen]
        rcases List.mem_append.mp hr with hr' | hr'
        · split at hr'
          · simp at hr'
          · rw [List.mem_singleton] at hr'
            subst hr'
            exact ⟨le_refl o2, show o2 ≤ o1 by omega, show o1 ≤ o2 + d2.length by omega,
              show o1 ≤ o1 + d1.length + (o2 + d2.length - (o1 + d1.length)) by omega⟩
        · split at hr'
          · rw [List.mem_singleton] at hr'
            subst hr'
            exact ⟨show o2 ≤ o1 + d1.length by omega,
              show o1 + d1.length ≤ o2 + d2.length by omega, le_refl (o2 + d2.length),
              show o2 + d2.length ≤ o1 + d1.length + (o2 + d2.length - (o1 + d1.length)) by omega⟩
          · simp at hr')
    have hlast : lastLE [(o1, d1.length)] (o2 + d2.length) = some (o1, d1.length) := by
      rw [lastLE_single, if_pos (show o1 ≤ o2 + d2.length by omega)]
    have hent : entriesLE [(o1, d1.length)] (o2 + d2.length) = [(o1, d1.length)] := by
      unfold entriesLE
      simp only [List.filter_cons, List.filter_nil]
      rw [if_pos (by simp only [decide_eq_true_eq]; show o1 ≤ o2 + d2.length; omega)]
    have hins : ∃ rr : Bool × RangeSet,
        RangeSet.insert_range ⟨[(o1, d1.length)], USIZE_MAX⟩ o2 (o2 + d2.length) = some rr := by
      simp only [RangeSet.insert_range, hlast]
      rw [if_neg (show ¬ o2 = o2 + d2.length by omega)]
      rw [if_neg (show ¬(o1 ≤ o2 ∧ o1 + d1.length ≥ o2 + d2.length) from
        fun h => hcov ⟨h.1, h.2⟩)]
      rw [if_neg (show ¬ o1 + d1.length < o2 by omega)]
      simp only [RangeSet._intersecting_insert, hent, List.reverse_cons, List.reverse_nil,
        List.nil_append, intersectLoop]
      by_cases h12o : o2 < o1
      · simp only [if_pos h12o]
        exact ⟨_, rfl⟩
      · simp only [if_neg h12o, if_neg (show ¬ o1 + d1.length < o2 by omega),
          if_pos (show o1 + d1.length < o2 + d2.length by omega)]
        exact ⟨_, rfl⟩
    obtain ⟨rr, hinseq⟩ := hins
    refine ⟨ReceiveSegmentResult.Received,
      { c3State1 W o1 d1 with buffer := buf', received := rr.2 }, ?_, rfl, hdisj, ?_⟩
    · rw [StreamInboundState.receive_segment]
      simp only [show (c3State1 W o1 d1).window_limit = W from rfl,
        show (c3State1 W o1 d1).buffer_offset = 0 from rfl,
        show (c3State1 W o1 d1).buffer = writeAt (List.replicate (o1 + d1.length) 0) o1 d1 from
          rfl,
        show (c3State1 W o1 d1).received = (⟨[(o1, d1.length)], USIZE_MAX⟩ : RangeSet) from rfl]
      rw [if_neg (by omega)]
      rw [if_neg (by rw [hhr]; exact Bool.false_ne_true)]
      rw [if_neg (by omega)]
      rw [hcompl, hbufeq, hceq, hinseq]
    · intro v h1 h2
      show buf'[v]? = d1[v - o1]?
      have hvout : ∀ r ∈ ((if o1 ≤ o2 then [] else [(o2, o1)]) ++
          (if o1 + d1.length < o2 + d2.length then [(o1 + d1.length, o2 + d2.length)] else [])),
          v < r.1 ∨ r.2 ≤ v := by
        intro r hr
        rcases List.mem_append.mp hr with hr' | hr'
        · split at hr'
          · simp at hr'
          · rw [List.mem_singleton] at hr'
            subst hr'
            right
            show o1 ≤ v
            omega
        · split at hr'
          · rw [List.mem_singleton] at hr'
            subst hr'
            left
            show v < o1 + d1.length
            omega
          · simp at hr'
      rw [hcout v hvout, List.getElem?_append_left (show v < _ by rw [hb]; omega)]
      exact hbyte v (by omega) (by omega)

/-- **C3.** On a fresh in-order-reliable inbound state, after `receive_segment o1 d1`
succeeds, a second overlapping `receive_segment o2 d2` copies only subranges of
`[o2, o2+|d2|)` not yet present in the received set (every point of every
complement range is uncovered), and every byte position in the overlap retains
the value written by the first call. -/
theorem claim_C3_overlap_first_write_wins (W o1 o2 : Nat) (d1 d2 : List Nat)
    (hw1 : o1 + d1.length ≤ W) (hw2 : o2 + d2.length ≤ W)
    (hov : max o1 o2 < min (o1 + d1.length) (o2 + d2.length)) :
    (StreamInboundState.new W true).receive_segment o1 d1 =
      some (ReceiveSegmentResult.Received, c3State1 W o1 d1) ∧
    (∀ v, o1 ≤ v → v < o1 + d1.length → (c3State1 W o1 d1).buffer[v]? = d1[v - o1]?) ∧
    (∀ r ∈ (c3State1 W o1 d1).received.range_complement o2 (o2 + d2.length),
      ∀ v, r.1 ≤ v → v < r.2 → ¬ covers (c3State1 W o1 d1).received.map v) ∧
    ∃ r2 st2, (c3State1 W o1 d1).receive_segment o2 d2 = some (r2, st2) ∧
      st2.buffer_offset = 0 ∧
      ∀ v, max o1 o2 ≤ v → v < min (o1 + d1.length) (o2 + d2.length) →
        st2.buffer[v]? = d1[v - o1]? := by
  obtain ⟨r2, st2, h1, h2, h3, h4⟩ := c3_second W o1 o2 d1 d2 hw1 hw2 hov
  refine ⟨c3_first W o1 d1 (by omega) hw1, ?_, h3, r2, st2, h1, h2, h4⟩
  intro v hv1 hv2
  show (writeAt (List.replicate (o1 + d1.length) 0) o1 d1)[v]? = d1[v - o1]?
  exact writeAt_getElem_inside (by rw [List.length_replicate]) hv1 hv2

theorem claim_C3_overlap_first_write_wins_witness :
    (0 + (List.replicate 6 1).length ≤ 16 ∧ 4 + (List.replicate 6 2).length ≤ 16 ∧
      max 0 4 < min (0 + (List.replicate 6 1).length) (4 + (List.replicate 6 2).length)) ∧
    (StreamInboundState.new 16 true).receive_segment 0 (List.replicate 6 1) =
      some (ReceiveSegmentResult.Received, c3State1 16 0 (List.replicate 6 1)) :=
  ⟨⟨by decide, by decide, by decide⟩,
   (claim_C3_overlap_first_write_wins 16 0 4 (List.replicate 6 1) (List.replicate 6 2)
     (by decide) (by decide) (by decide)).1⟩

/-! ## C6: insert_range full correctness -/

theorem keysSorted_of_WF {l : List (Nat × Nat)} (hWF : WF l) :
    l.Pairwise (fun p q => p.1 < q.1) :=
  hWF.1.imp (fun h => by omega)

theorem keys_inj {l : List (Nat × Nat)} (hWF : WF l) :
    ∀ p ∈ l, ∀ q ∈ l, p.1 = q.1 → p = q := by
  intro p hp q hq hk
  by_cases h : p = q
  · exact h
  · exfalso
    rcases pairwise_or hWF.1 p hp q hq h with h' | h' <;> omega

theorem WF_sublist {l l' : List (Nat × Nat)} (h : l'.Sublist l) (hWF : WF l) : WF l' :=
  ⟨hWF.1.sublist h, fun p hp => hWF.2 p (h.mem hp)⟩

theorem WF_of_sep {l : List (Nat × Nat)} (hs : l.Pairwise (fun p q => p.1 < q.1))
    (hsep : ∀ p ∈ l, ∀ q ∈ l, p ≠ q → p.1 + p.2 < q.1 ∨ q.1 + q.2 < p.1)
    (hpos : ∀ p ∈ l, 0 < p.2) : WF l := by
  refine ⟨hs.imp_of_mem ?_, hpos⟩
  intro p q hp hq hlt
  rcases hsep p hp q hq (by intro h; rw [h] at hlt; omega) with h | h
  · exact h
  · omega

theorem mapInsert_mem (k v : Nat) : ∀ (l : List (Nat × Nat)),
    l.Pairwise (fun p q => p.1 < q.1) →
    ∀ p, p ∈ mapInsert l k v ↔ p = (k, v) ∨ (p ∈ l ∧ p.1 ≠ k) := by
  intro l
  induction l with
  | nil => intro _ p; simp [mapInsert]
  | cons q0 rest ih =>
    intro hs p
    obtain ⟨k0, v0⟩ := q0
    rcases List.pairwise_cons.mp hs with ⟨h0, hrest⟩
    simp only [mapInsert]
    by_cases h1 : k < k0
    · rw [if_pos h1]
      simp only [List.mem_cons]
      constructor
      · rintro (rfl | rfl | hm)
        · exact Or.inl rfl
        · exact Or.inr ⟨Or.inl rfl, by show k0 ≠ k; omega⟩
        · exact Or.inr ⟨Or.inr hm, by have := h0 p hm; omega⟩
      · rintro (rfl | ⟨rfl | hm, hne⟩)
        · exact Or.inl rfl
        · exact Or.inr (Or.inl rfl)
        · exact Or.inr (Or.inr hm)
    · by_cases h2 : k = k0
      · rw [if_neg h1, if_pos h2]
        subst h2
        simp only [List.mem_cons]
        constructor
        · rintro (rfl | hm)
          · exact Or.inl rfl
          · exact Or.inr ⟨Or.inr hm, by have := h0 p hm; omega⟩
        · rintro (rfl | ⟨rfl | hm, hne⟩)
          · exact Or.inl rfl
          · exact absurd rfl hne
          · exact Or.inr hm
      · rw [if_neg h1, if_neg h2]
        simp only [List.mem_cons, ih hrest p]
        constructor
        · rintro (rfl | rfl | ⟨hm, hne⟩)
          · exact Or.inr ⟨Or.inl rfl, by show k0 ≠ k; omega⟩
          · exact Or.inl rfl
          · exact Or.inr ⟨Or.inr hm, hne⟩
        · rintro (rfl | ⟨rfl | hm, hne⟩)
          · exact Or.inr (Or.inl rfl)
          · exact Or.inl rfl
          · exact Or.inr (Or.inr ⟨hm, hne⟩)

theorem mapInsert_sorted (k v : Nat) : ∀ (l : List (Nat × Nat)),
    l.Pairwise (fun p q => p.1 < q.1) →
    (mapInsert l k v).Pairwise (fun p q => p.1 < q.1) := by
  intro l
  induction l with
  | nil => intro _; simp [mapInsert]
  | cons q0 rest ih =>
    intro hs
    obtain ⟨k0, v0⟩ := q0
    rcases List.pairwise_cons.mp hs with ⟨h0, hrest⟩
    simp only [mapInsert]
    by_cases h1 : k < k0
    · rw [if_pos h1]
      refine List.pairwise_cons.mpr ⟨?_, hs⟩
      intro q hq
      rcases List.mem_cons.mp hq with rfl | hm
      · exact h1
      · have := h0 q hm
        show k < q.1
        omega
    · by_cases h2 : k = k0
      · rw [if_neg h1, if_pos h2]
        subst h2
        exact List.pairwise_cons.mpr ⟨fun q hq => h0 q hq, hrest⟩
      · rw [if_neg h1, if_neg h2]
        refine List.pairwise_cons.mpr ⟨?_, ih hrest⟩
        intro q hq
        rcases (mapInsert_mem k v rest hrest q).mp hq with rfl | ⟨hm, _⟩
        · show k0 < k
          omega
        · exact h0 q hm

theorem mapInsert_WF {l : List (Nat × Nat)} {a b : Nat} (hWF : WF l) (hab : a < b)
    (hfit : ∀ p ∈ l, p.1 ≠ a → p.1 + p.2 < a ∨ b < p.1) :
    WF (mapInsert l a (b - a)) := by
  have hs := keysSorted_of_WF hWF
  have hmem := mapInsert_mem a (b - a) l hs
  refine WF_of_sep (mapInsert_sorted a (b - a) l hs) ?_ ?_
  · intro p hp q hq hne
    rcases (hmem p).mp hp with rfl | ⟨hpm, hpk⟩ <;> rcases (hmem q).mp hq with rfl | ⟨hqm, hqk⟩
    · exact absurd rfl hne
    · rcases hfit q hqm hqk with h | h
      · right
        show q.1 + q.2 < a
        omega
      · left
        show a + (b - a) < q.1
        omega
    · rcases hfit p hpm hpk with h | h
      · left
        show p.1 + p.2 < a
        omega
      · right
        show a + (b - a) < p.1
        omega
    · exact pairwise_or hWF.1 p hpm q hqm hne
  · intro p hp
    rcases (hmem p).mp hp with rfl | ⟨hpm, _⟩
    · show 0 < b - a
      omega
    · exact hWF.2 p hpm

theorem mapRemove_mem (k : Nat) : ∀ (l : List (Nat × Nat)),
    l.Pairwise (fun p q => p.1 < q.1) →
    ∀ p, p ∈ mapRemove l k ↔ p ∈ l ∧ p.1 ≠ k := by
  intro l
  induction l with
  | nil => intro _ p; simp [mapRemove]
  | cons q0 rest ih =>
    intro hs p
    rcases List.pairwise_cons.mp hs with ⟨h0, hrest⟩
    by_cases hq : q0.1 = k
    · rw [show mapRemove (q0 :: rest) k = rest from by
        unfold mapRemove
        exact List.eraseP_cons_of_pos (by simp [hq])]
      constructor
      · intro hm
        exact ⟨List.mem_cons_of_mem _ hm, by have := h0 p hm; omega⟩
      · rintro ⟨hm, hne⟩
        rcases List.mem_cons.mp hm with rfl | hm'
        · exact absurd hq hne
        · exact hm'
    · rw [show mapRemove (q0 :: rest) k = q0 :: mapRemove rest k from by
        unfold mapRemove
        exact List.eraseP_cons_of_neg (by simp [hq])]
      simp only [List.mem_cons, ih hrest p]
      constructor
      · rintro (rfl | ⟨hm, hne⟩)
        · exact ⟨Or.inl rfl, hq⟩
        · exact ⟨Or.inr hm, hne⟩
      · rintro ⟨rfl | hm, hne⟩
        · exact Or.inl rfl
        · exact Or.inr ⟨hm, hne⟩

theorem foldl_mapRemove_sublist : ∀ (rem : List Nat) (l : List (Nat × Nat)),
    (rem.foldl (fun acc s => mapRemove acc s) l).Sublist l := by
  intro rem
  induction rem with
  | nil => intro l; exact List.Sublist.refl l
  | cons s rest ih =>
    intro l
    exact (ih (mapRemove l s)).trans (List.eraseP_sublist _)

theorem foldl_mapRemove_mem : ∀ (rem : List Nat) (l : List (Nat × Nat)),
    l.Pairwise (fun p q => p.1 < q.1) →
    ∀ p, p ∈ rem.foldl (fun acc s => mapRemove acc s) l ↔ p ∈ l ∧ p.1 ∉ rem := by
  intro rem
  induction rem with
  | nil => intro l _ p; simp
  | cons s rest ih =>
    intro l hs p
    have hs' : (mapRemove l s).Pairwise (fun p q => p.1 < q.1) :=
      hs.sublist (List.eraseP_sublist _)
    show p ∈ rest.foldl _ (mapRemove l s) ↔ _
    rw [ih (mapRemove l s) hs' p, mapRemove_mem s l hs p]
    simp only [List.mem_cons]
    constructor
    · rintro ⟨⟨hm, hne⟩, hnr⟩
      exact ⟨hm, fun hc => hc.elim hne hnr⟩
    · rintro ⟨hm, hn⟩
      exact ⟨⟨hm, fun h => hn (Or.inl h)⟩, fun h => hn (Or.inr h)⟩

theorem entriesLE_mem {l : List (Nat × Nat)} {x : Nat} {p : Nat × Nat} :
    p ∈ entriesLE l x ↔ p ∈ l ∧ p.1 ≤ x := by
  unfold entriesLE
  rw [List.mem_filter]
  simp

/-- Full characterization of the `_intersecting_insert` loop: it consumes a
prefix `C` of the descending intersecting entries, extends `[ns, ne)` to
exactly the union of `[ns, ne)` with the consumed ranges, and returns the
consumed keys appended to `rem`. -/
theorem intersectLoop_spec : ∀ (d : List (Nat × Nat)) (ns ne : Nat) (rem : List Nat),
    d.Pairwise (fun p q => q.1 + q.2 < p.1) →
    (∀ p ∈ d, 0 < p.2) →
    (∀ p ∈ d, p.1 ≤ ne) →
    ns ≤ ne →
    (∀ p ∈ d, ¬(p.1 ≤ ns ∧ ne ≤ p.1 + p.2)) →
    ∃ C D ns' ne', d = C ++ D ∧
      intersectLoop d ns ne rem = some (ns', ne', rem ++ C.map Prod.fst) ∧
      ns' ≤ ns ∧ ne ≤ ne' ∧
      (∀ p ∈ D, p.1 + p.2 < ns') ∧
      (ne' = ne ∨ ∃ p ∈ C, ne' = p.1 + p.2) ∧
      (∀ v, (ns' ≤ v ∧ v < ne') ↔
        ((ns ≤ v ∧ v < ne) ∨ ∃ p ∈ C, p.1 ≤ v ∧ v < p.1 + p.2)) := by
  intro d
  induction d with
  | nil =>
    intro ns ne rem _ _ _ _ _
    refine ⟨[], [], ns, ne, rfl, ?_, le_rfl, le_rfl, by simp, Or.inl rfl, by simp⟩
    simp [intersectLoop]
  | cons hd rest ih =>
    intro ns ne rem hpair hpos hkey hnsne hnc
    obtain ⟨s, l⟩ := hd
    rcases List.pairwise_cons.mp hpair with ⟨hhd, hrest⟩
    have hposh : 0 < l := hpos (s, l) (List.mem_cons_self _ _)
    have hkeyh : s ≤ ne := hkey (s, l) (List.mem_cons_self _ _)
    have hnch : ¬(s ≤ ns ∧ ne ≤ s + l) := hnc (s, l) (List.mem_cons_self _ _)
    by_cases h1 : ns < s
    · -- head starts after ns: consume it and extend ne
      have hmax : (if ne < s + l then s + l else ne) = max ne (s + l) := by
        split <;> omega
      obtain ⟨C, D, ns', ne', hCD, hloop, hns, hne, hD, hneor, hcov⟩ :=
        ih ns (max ne (s + l)) (rem ++ [s])
          hrest
          (fun p hp => hpos p (List.mem_cons_of_mem _ hp))
          (fun p hp => by have := hkey p (List.mem_cons_of_mem _ hp); omega)
          (by omega)
          (fun p hp => by have := hhd p hp; omega)
      refine ⟨(s, l) :: C, D, ns', ne', by rw [List.cons_append, hCD], ?_, hns, by omega,
        hD, ?_, ?_⟩
      · simp only [intersectLoop]
        rw [if_pos h1, hmax, hloop, List.map_cons, List.append_assoc]
        rfl
      · rcases hneor with h | ⟨p, hp, hpe⟩
        · rcases Nat.le_total (s + l) ne with hc | hc
          · left
            omega
          · right
            exact ⟨(s, l), List.mem_cons_self _ _, by show ne' = s + l; omega⟩
        · exact Or.inr ⟨p, List.mem_cons_of_mem _ hp, hpe⟩
      · intro v
        rw [hcov v]
        have hstep : (ns ≤ v ∧ v < max ne (s + l)) ↔
            ((ns ≤ v ∧ v < ne) ∨ (s ≤ v ∧ v < s + l)) := by
          clear hcov hneor hloop hmax
          omega
        rw [hstep]
        constructor
        · rintro ((h | h) | ⟨p, hp, hc1, hc2⟩)
          · exact Or.inl h
          · exact Or.inr ⟨(s, l), List.mem_cons_self _ _, h.1, h.2⟩
          · exact Or.inr ⟨p, List.mem_cons_of_mem _ hp, hc1, hc2⟩
        · rintro (h | ⟨p, hp, hc1, hc2⟩)
          · exact Or.inl (Or.inl h)
          · rcases List.mem_cons.mp hp with rfl | hp'
            · exact Or.inl (Or.inr ⟨hc1, hc2⟩)
            · exact Or.inr ⟨p, hp', hc1, hc2⟩
    · -- head starts at or before ns
      by_cases h2 : s + l < ns
      · -- head ends before ns: stop here
        refine ⟨[], (s, l) :: rest, ns, ne, rfl, ?_, le_rfl, le_rfl, ?_, Or.inl rfl, by simp⟩
        · simp only [intersectLoop]
          rw [if_neg h1, if_pos h2]
          simp
        · intro p hp
          rcases List.mem_cons.mp hp with rfl | hp'
          · exact h2
          · have := hhd p hp'
            omega
      · -- head overlaps or touches: consume it, move ns down to s
        have h3 : s + l < ne := by
          by_contra hc
          exact hnch ⟨by omega, by omega⟩
        obtain ⟨C, D, ns', ne', hCD, hloop, hns, hne, hD, hneor, hcov⟩ :=
          ih s ne (rem ++ [s])
            hrest
            (fun p hp => hpos p (List.mem_cons_of_mem _ hp))
            (fun p hp => hkey p (List.mem_cons_of_mem _ hp))
            (by omega)
            (fun p hp => by have := hhd p hp; omega)
        refine ⟨(s, l) :: C, D, ns', ne', by rw [List.cons_append, hCD], ?_, by omega, hne,
          hD, ?_, ?_⟩
        · simp only [intersectLoop]
          rw [if_neg h1, if_neg h2, if_pos h3, hloop, List.map_cons, List.append_assoc]
          rfl
        · rcases hneor with h | ⟨p, hp, hpe⟩
          · exact Or.inl h
          · exact Or.inr ⟨p, List.mem_cons_of_mem _ hp, hpe⟩
        · intro v
          rw [hcov v]
          have hstep : (s ≤ v ∧ v < ne) ↔
              ((ns ≤ v ∧ v < ne) ∨ (s ≤ v ∧ v < s + l)) := by
            clear hcov hneor hloop
            omega
          rw [hstep]
          constructor
          · rintro ((h | h) | ⟨p, hp, hc1, hc2⟩)
            · exact Or.inl h
            · exact Or.inr ⟨(s, l), List.mem_cons_self _ _, h.1, h.2⟩
            · exact Or.inr ⟨p, List.mem_cons_of_mem _ hp, hc1, hc2⟩
          · rintro (h | ⟨p, hp, hc1, hc2⟩)
            · exact Or.inl (Or.inl h)
            · rcases List.mem_cons.mp hp with rfl | hp'
              · exact Or.inl (Or.inr ⟨hc1, hc2⟩)
              · exact Or.inr ⟨p, hp', hc1, hc2⟩

/-- `_max_checked_insert` correctness, given the inserted range is separated
from all stored ranges. -/
theorem max_checked_insert_spec (rs : RangeSet) (a b : Nat) (hWF : WF rs.map) (hab : a < b)
    (hsep : separated rs.map a b) :
    (rs._max_checked_insert a b).2.max_size = rs.max_size ∧
    ((rs._max_checked_insert a b).1 = false ↔
      separated rs.map a b ∧ rs.max_size ≤ rs.map.length) ∧
    ((rs._max_checked_insert a b).1 = false → (rs._max_checked_insert a b).2 = rs) ∧
    WF (rs._max_checked_insert a b).2.map ∧
    ((rs._max_checked_insert a b).1 = true →
      ∀ v, covers (rs._max_checked_insert a b).2.map v ↔
        covers rs.map v ∨ (a ≤ v ∧ v < b)) := by
  unfold RangeSet._max_checked_insert
  by_cases hcap : rs.map.length ≥ rs.max_size
  · rw [if_pos hcap]
    exact ⟨rfl, iff_of_true rfl ⟨hsep, hcap⟩, fun _ => rfl, hWF, fun h => nomatch h⟩
  · rw [if_neg hcap]
    refine ⟨rfl, iff_of_false (by simp) (fun h => hcap h.2), ?_, ?_, ?_⟩
    · simp
    · show WF (RangeSet._direct_insert rs a b).map
      unfold RangeSet._direct_insert
      exact mapInsert_WF hWF hab (fun p hp _ => hsep p hp)
    · intro _ v
      show covers (RangeSet._direct_insert rs a b).map v ↔ _
      unfold RangeSet._direct_insert
      have hmem := mapInsert_mem a (b - a) rs.map (keysSorted_of_WF hWF)
      constructor
      · rintro ⟨p, hp, h1, h2⟩
        rcases (hmem p).mp hp with rfl | ⟨hpm, _⟩
        · right
          refine ⟨h1, ?_⟩
          have h2' : v < a + (b - a) := h2
          omega
        · exact Or.inl ⟨p, hpm, h1, h2⟩
      · rintro (⟨p, hpm, h1, h2⟩ | ⟨h1, h2⟩)
        · refine ⟨p, (hmem p).mpr (Or.inr ⟨hpm, ?_⟩), h1, h2⟩
          have := hsep p hpm
          omega
        · exact ⟨(a, b - a), (hmem _).mpr (Or.inl rfl), h1, by show v < a + (b - a); omega⟩

/-- `insert_range` full correctness on a well-formed set: it never hits the
`unreachable!`, fails (`false`) exactly when the new range is separated from
all stored ranges and the cap is reached (leaving the set unchanged), keeps
the set well-formed, and on success the stored set covers exactly the union
of the old set with `[a, b)`. -/
theorem insert_range_spec (rs : RangeSet) (a b : Nat) (hWF : WF rs.map) (hab : a < b) :
    ∃ res : Bool × RangeSet, rs.insert_range a b = some res ∧
      res.2.max_size = rs.max_size ∧
      (res.1 = false ↔ separated rs.map a b ∧ rs.max_size ≤ rs.map.length) ∧
      (res.1 = false → res.2 = rs) ∧
      WF res.2.map ∧
      (res.1 = true → ∀ v, covers res.2.map v ↔ covers rs.map v ∨ (a ≤ v ∧ v < b)) := by
  cases hl : lastLE rs.map b with
  | none =>
    have hsep : separated rs.map a b := fun p hp =>
      Or.inr (by have := lastLE_none hl p hp; omega)
    refine ⟨rs._max_checked_insert a b, ?_, max_checked_insert_spec rs a b hWF hab hsep⟩
    unfold RangeSet.insert_range
    rw [if_neg (by omega), hl]
  | some p =>
    obtain ⟨s, len⟩ := p
    obtain ⟨hml, hmx⟩ := lastLE_mem hl
    by_cases hc1 : s ≤ a ∧ s + len ≥ b
    · -- range already covered by the last entry
      refine ⟨(true, rs), ?_, rfl, ?_, ?_, hWF, ?_⟩
      · unfold RangeSet.insert_range
        rw [if_neg (by omega), hl]
        simp only
        rw [if_pos hc1]
      · exact iff_of_false (by simp) (fun h => by
          rcases h.1 (s, len) hml with hx | hx
          · have hx' : s + len < a := hx
            omega
          · have hx' : b < s := hx
            omega)
      · simp
      · intro _ v
        constructor
        · exact Or.inl
        · rintro (h | ⟨h1, h2⟩)
          · exact h
          · exact ⟨(s, len), hml, by omega, by omega⟩
    · by_cases hc2 : s + len < a
      · -- new range after all stored ranges: direct insert path
        have hsep : separated rs.map a b := by
          intro p hp
          by_cases hpb : p.1 ≤ b
          · by_cases hpe : p = (s, len)
            · subst hpe
              exact Or.inl hc2
            · have hps : p.1 ≤ s := lastLE_maximal hWF.1 hl p hp hpb
              rcases pairwise_or hWF.1 p hp (s, len) hml hpe with h | h
              · have h' : p.1 + p.2 < s := h
                left
                omega
              · have h' : s + len < p.1 := h
                omega
          · right
            omega
        refine ⟨rs._max_checked_insert a b, ?_, max_checked_insert_spec rs a b hWF hab hsep⟩
        unfold RangeSet.insert_range
        rw [if_neg (by omega), hl]
        simp only
        rw [if_neg hc1, if_pos hc2]
      · -- intersecting insert
        have hd : ((entriesLE rs.map b).reverse).Pairwise (fun p q => q.1 + q.2 < p.1) :=
          List.pairwise_reverse.mpr (hWF.1.sublist (List.filter_sublist _))
        have hmemd : ∀ p ∈ (entriesLE rs.map b).reverse, p ∈ rs.map ∧ p.1 ≤ b := by
          intro p hp
          exact entriesLE_mem.mp (List.mem_reverse.mp hp)
        have hnc : ∀ p ∈ (entriesLE rs.map b).reverse, ¬(p.1 ≤ a ∧ b ≤ p.1 + p.2) := by
          intro p hp
          obtain ⟨hpm, hpb⟩ := hmemd p hp
          by_cases hpe : p = (s, len)
          · subst hpe
            intro hcon
            exact hc1 ⟨hcon.1, hcon.2⟩
          · have hps : p.1 ≤ s := lastLE_maximal hWF.1 hl p hpm hpb
            rcases pairwise_or hWF.1 p hpm (s, len) hml hpe with h | h
            · have h' : p.1 + p.2 < s := h
              intro hcon
              omega
            · have h' : s + len < p.1 := h
              omega
        obtain ⟨C, D, ns', ne', hCD, hloop, hns, hne, hD, hneor, hcov⟩ :=
          intersectLoop_spec ((entriesLE rs.map b).reverse) a b []
            hd
            (fun p hp => hWF.2 p (hmemd p hp).1)
            (fun p hp => (hmemd p hp).2)
            (by omega)
            hnc
        rw [List.nil_append] at hloop
        set m : List (Nat × Nat) := (C.map Prod.fst).foldl (fun acc s => mapRemove acc s) rs.map
          with hm
        have hCsub : ∀ p ∈ C, p ∈ rs.map ∧ p.1 ≤ b := by
          intro p hp
          exact hmemd p (by rw [hCD]; exact List.mem_append.mpr (Or.inl hp))
        have hsor := keysSorted_of_WF hWF
        have hmmem : ∀ p, p ∈ m ↔ p ∈ rs.map ∧ p.1 ∉ C.map Prod.fst :=
          foldl_mapRemove_mem (C.map Prod.fst) rs.map hsor
        have hmsub : m.Sublist rs.map := foldl_mapRemove_sublist (C.map Prod.fst) rs.map
        have hWFm : WF m := WF_sublist hmsub hWF
        have habk : ns' ≤ a ∧ b ≤ ne' := ⟨hns, hne⟩
        have hkeyC : ∀ q ∈ rs.map, q.1 ∈ C.map Prod.fst → q ∈ C := by
          intro q hq hqc
          obtain ⟨c, hc, hck⟩ := List.mem_map.mp hqc
          have hce : c = q := keys_inj hWF c (hCsub c hc).1 q hq hck
          rw [hce] at hc
          exact hc
        have hdmem : ∀ p ∈ rs.map, p.1 ≤ b → p ∈ C ∨ p ∈ D := by
          intro p hp hpb
          have hpd : p ∈ (entriesLE rs.map b).reverse :=
            List.mem_reverse.mpr (entriesLE_mem.mpr ⟨hp, hpb⟩)
          rw [hCD] at hpd
          exact List.mem_append.mp hpd
        have hfitD : ∀ p ∈ m, p.1 ≠ ns' → p.1 + p.2 < ns' ∨ ne' < p.1 := by
          intro p hpm _
          obtain ⟨hpmap, hpnc⟩ := (hmmem p).mp hpm
          by_cases hpb : p.1 ≤ b
          · rcases hdmem p hpmap hpb with hC | hD'
            · exact absurd (List.mem_map.mpr ⟨p, hC, rfl⟩) hpnc
            · exact Or.inl (hD p hD')
          · right
            rcases hneor with h | ⟨c, hc, hce⟩
            · omega
            · have hcm := (hCsub c hc).1
              have hcb := (hCsub c hc).2
              have hcp : c ≠ p := by
                intro h'
                rw [h'] at hcb
                omega
              rcases pairwise_or hWF.1 c hcm p hpmap hcp with h' | h'
              · omega
              · have hppos : 0 < p.2 := hWF.2 p hpmap
                omega
        have hnokey : ∀ p ∈ m, p.1 ≠ ns' := by
          intro p hpm
          obtain ⟨hpmap, hpnc⟩ := (hmmem p).mp hpm
          by_cases hpb : p.1 ≤ b
          · rcases hdmem p hpmap hpb with hC | hD'
            · exact absurd (List.mem_map.mpr ⟨p, hC, rfl⟩) hpnc
            · have hd1 := hD p hD'
              have hd2 := hWF.2 p hpmap
              omega
          · omega
        have hns'ne' : ns' < ne' := by omega
        have hWFres : WF (mapInsert m ns' (ne' - ns')) := mapInsert_WF hWFm hns'ne' hfitD
        have heq2 : rs._intersecting_insert a b =
            some { rs with map := mapInsert m ns' (ne' - ns') } := by
          unfold RangeSet._intersecting_insert
          rw [hloop]
        have heq : rs.insert_range a b =
            some (true, { rs with map := mapInsert m ns' (ne' - ns') }) := by
          unfold RangeSet.insert_range
          rw [if_neg (by omega), hl]
          simp only
          rw [if_neg hc1, if_neg hc2, heq2]
          rfl
        refine ⟨(true, { rs with map := mapInsert m ns' (ne' - ns') }), heq, rfl, ?_,
          ?_, hWFres, ?_⟩
        · exact iff_of_false (by simp) (fun h => by
            rcases h.1 (s, len) hml with hx | hx
            · exact hc2 hx
            · have hx' : b < s := hx
              omega)
        · simp
        · intro _ v
          show covers (mapInsert m ns' (ne' - ns')) v ↔ covers rs.map v ∨ (a ≤ v ∧ v < b)
          have hmemI := mapInsert_mem ns' (ne' - ns') m (keysSorted_of_WF hWFm)
          have e1 : covers (mapInsert m ns' (ne' - ns')) v ↔
              ((ns' ≤ v ∧ v < ne') ∨ covers m v) := by
            constructor
            · rintro ⟨p, hp, h1, h2⟩
              rcases (hmemI p).mp hp with rfl | ⟨hpm, _⟩
              · left
                refine ⟨h1, ?_⟩
                have h2' : v < ns' + (ne' - ns') := h2
                omega
              · exact Or.inr ⟨p, hpm, h1, h2⟩
            · rintro (⟨h1, h2⟩ | ⟨p, hpm, h1, h2⟩)
              · exact ⟨(ns', ne' - ns'), (hmemI _).mpr (Or.inl rfl), h1,
                  by show v < ns' + (ne' - ns'); omega⟩
              · exact ⟨p, (hmemI p).mpr (Or.inr ⟨hpm, hnokey p hpm⟩), h1, h2⟩
          have e2 : covers rs.map v ↔
              (covers m v ∨ ∃ p ∈ C, p.1 ≤ v ∧ v < p.1 + p.2) := by
            constructor
            · rintro ⟨p, hp, h1, h2⟩
              by_cases hpc : p.1 ∈ C.map Prod.fst
              · exact Or.inr ⟨p, hkeyC p hp hpc, h1, h2⟩
              · exact Or.inl ⟨p, (hmmem p).mpr ⟨hp, hpc⟩, h1, h2⟩
            · rintro (⟨p, hpm, h1, h2⟩ | ⟨p, hp, h1, h2⟩)
              · exact ⟨p, ((hmmem p).mp hpm).1, h1, h2⟩
              · exact ⟨p, (hCsub p hp).1, h1, h2⟩
          rw [e1, hcov v, e2]
          constructor
          · rintro ((h | h) | h)
            · exact Or.inr h
            · exact Or.inl (Or.inr h)
            · exact Or.inl (Or.inl h)
          · rintro ((h | h) | h)
            · exact Or.inr h
            · exact Or.inl (Or.inr h)
            · exact Or.inl (Or.inl h)

/-- **C6.** For every non-empty range `[a, b)` inserted into a well-formed
`RangeSet`, `insert_range` returns `false` (Full) exactly when `[a, b)`
neither overlaps nor touches any stored range and the stored-range count has
reached the cap, leaving the set unchanged; in every other case it returns
`true` and the stored set afterwards covers exactly the union of the prior set
with `[a, b)`, still well-formed (all adjacent or overlapping ranges merged:
no two stored ranges overlap or touch). -/
theorem claim_C6_insert_range_union (rs : RangeSet) (a b : Nat)
    (hWF : WF rs.map) (hab : a < b) :
    ∃ res : Bool × RangeSet, rs.insert_range a b = some res ∧
      (res.1 = false ↔ separated rs.map a b ∧ rs.max_size ≤ rs.map.length) ∧
      (res.1 = false → res.2 = rs) ∧
      WF res.2.map ∧
      (res.1 = true → ∀ v, covers res.2.map v ↔ covers rs.map v ∨ (a ≤ v ∧ v < b)) := by
  obtain ⟨res, h1, _, h3, h4, h5, h6⟩ := insert_range_spec rs a b hWF hab
  exact ⟨res, h1, h3, h4, h5, h6⟩

theorem claim_C6_insert_range_union_witness :
    (WF ([(0, 2), (5, 3)] : List (Nat × Nat)) ∧ 2 < 4) ∧
    (∃ res : Bool × RangeSet,
      (⟨[(0, 2), (5, 3)], 10⟩ : RangeSet).insert_range 2 4 = some res ∧
      (res.1 = false ↔ separated [(0, 2), (5, 3)] 2 4 ∧
        (10 : Nat) ≤ ([(0, 2), (5, 3)] : List (Nat × Nat)).length) ∧
      (res.1 = false → res.2 = ⟨[(0, 2), (5, 3)], 10⟩) ∧
      WF res.2.map ∧
      (res.1 = true → ∀ v, covers res.2.map v ↔
        covers [(0, 2), (5, 3)] v ∨ (2 ≤ v ∧ v < 4))) :=
  ⟨⟨⟨by decide, by decide⟩, by decide⟩,
    claim_C6_insert_range_union ⟨[(0, 2), (5, 3)], 10⟩ 2 4 ⟨by decide, by decide⟩ (by decide)⟩

/-! ## C7: the RangeSet invariant over operation sequences -/

theorem removeLoop_WF : ∀ (d : List (Nat × Nat)) (m : List (Nat × Nat)) (lower upper : Nat),
    WF m →
    d.Pairwise (fun p q => q.1 + q.2 < p.1) →
    (∀ p ∈ d, p ∈ m) →
    (∀ p ∈ d, p.1 < upper) →
    (∀ q ∈ m, q ∉ d → upper ≤ q.1) →
    lower < upper →
    WF (applyPending m (removeLoop lower upper d).1) := by
  intro d
  induction d with
  | nil =>
    intro m lower upper hWF _ _ _ _ _
    exact hWF
  | cons hd rest ih =>
    intro m lower upper hWF hpair hdm hup hout hlu
    obtain ⟨s, l⟩ := hd
    rcases List.pairwise_cons.mp hpair with ⟨hhd, hrest⟩
    have hsm : (s, l) ∈ m := hdm (s, l) (List.mem_cons_self _ _)
    have hsup : s < upper := hup (s, l) (List.mem_cons_self _ _)
    have hsort := keysSorted_of_WF hWF
    simp only [removeLoop]
    by_cases h1 : s + l ≤ lower
    · rw [if_pos h1]
      exact hWF
    · rw [if_neg h1]
      by_cases h2 : s + l ≤ upper
      · rw [if_pos h2]
        by_cases h3 : s ≥ lower
        · rw [if_pos h3]
          show WF (applyPending (mapRemove m s) (removeLoop lower upper rest).1)
          refine ih (mapRemove m s) lower upper (WF_sublist (List.eraseP_sublist _) hWF)
            hrest ?_ (fun p hp => hup p (List.mem_cons_of_mem _ hp)) ?_ hlu
          · intro p hp
            refine (mapRemove_mem s m hsort p).mpr ⟨hdm p (List.mem_cons_of_mem _ hp), ?_⟩
            have := hhd p hp
            omega
          · intro q hq hqr
            obtain ⟨hqm, hqk⟩ := (mapRemove_mem s m hsort q).mp hq
            refine hout q hqm ?_
            intro hqd
            rcases List.mem_cons.mp hqd with rfl | h
            · exact hqk rfl
            · exact hqr h
        · rw [if_neg h3]
          show WF (mapInsert m s (lower - s))
          have hfit : ∀ p ∈ m, p.1 ≠ s → p.1 + p.2 < s ∨ lower < p.1 := by
            intro p hp hpk
            have hpe : p ≠ (s, l) := by
              intro h
              rw [h] at hpk
              exact hpk rfl
            rcases pairwise_or hWF.1 p hp (s, l) hsm hpe with h | h
            · have h' : p.1 + p.2 < s := h
              exact Or.inl h'
            · have h' : s + l < p.1 := h
              right
              omega
          exact mapInsert_WF hWF (by omega) hfit
      · rw [if_neg h2]
        by_cases h3 : s < lower
        · rw [if_pos h3]
          show WF (mapInsert (mapInsert m s (lower - s)) upper (s + l - upper))
          have hfit1 : ∀ p ∈ m, p.1 ≠ s → p.1 + p.2 < s ∨ lower < p.1 := by
            intro p hp hpk
            have hpe : p ≠ (s, l) := by
              intro h
              rw [h] at hpk
              exact hpk rfl
            rcases pairwise_or hWF.1 p hp (s, l) hsm hpe with h | h
            · have h' : p.1 + p.2 < s := h
              exact Or.inl h'
            · have h' : s + l < p.1 := h
              right
              omega
          have hWF1 : WF (mapInsert m s (lower - s)) := mapInsert_WF hWF h3 hfit1
          have hfit2 : ∀ p ∈ mapInsert m s (lower - s), p.1 ≠ upper →
              p.1 + p.2 < upper ∨ s + l < p.1 := by
            intro p hp _
            rcases (mapInsert_mem s (lower - s) m hsort p).mp hp with rfl | ⟨hpm, hpk⟩
            · left
              show s + (lower - s) < upper
              omega
            · have hpe : p ≠ (s, l) := by
                intro h
                rw [h] at hpk
                exact hpk rfl
              rcases pairwise_or hWF.1 p hpm (s, l) hsm hpe with h | h
              · have h' : p.1 + p.2 < s := h
                left
                omega
              · have h' : s + l < p.1 := h
                exact Or.inr h'
          exact mapInsert_WF hWF1 (by omega) hfit2
        · rw [if_neg h3]
          show WF (applyPending (mapInsert (mapRemove m s) upper (s + l - upper))
            (removeLoop lower upper rest).1)
          have hWFr : WF (mapRemove m s) := WF_sublist (List.eraseP_sublist _) hWF
          have hsr : (mapRemove m s).Pairwise (fun p q => p.1 < q.1) := keysSorted_of_WF hWFr
          have hfit2 : ∀ p ∈ mapRemove m s, p.1 ≠ upper →
              p.1 + p.2 < upper ∨ s + l < p.1 := by
            intro p hp _
            obtain ⟨hpm, hpk⟩ := (mapRemove_mem s m hsort p).mp hp
            have hpe : p ≠ (s, l) := by
              intro h
              rw [h] at hpk
              exact hpk rfl
            rcases pairwise_or hWF.1 p hpm (s, l) hsm hpe with h | h
            · have h' : p.1 + p.2 < s := h
              left
              omega
            · have h' : s + l < p.1 := h
              exact Or.inr h'
          have hWF2 : WF (mapInsert (mapRemove m s) upper (s + l - upper)) :=
            mapInsert_WF hWFr (by omega) hfit2
          have hmem2 := mapInsert_mem upper (s + l - upper) (mapRemove m s) hsr
          refine ih _ lower upper hWF2 hrest ?_
            (fun p hp => hup p (List.mem_cons_of_mem _ hp)) ?_ hlu
          · intro p hp
            have hpk : p.1 ≠ s := by have := hhd p hp; omega
            have hpu : p.1 < upper := hup p (List.mem_cons_of_mem _ hp)
            exact (hmem2 p).mpr (Or.inr
              ⟨(mapRemove_mem s m hsort p).mpr ⟨hdm p (List.mem_cons_of_mem _ hp), hpk⟩,
                by omega⟩)
          · intro q hq hqr
            rcases (hmem2 q).mp hq with rfl | ⟨hq', hqk⟩
            · exact le_rfl
            · obtain ⟨hqm, hqk2⟩ := (mapRemove_mem s m hsort q).mp hq'
              refine hout q hqm ?_
              intro hqd
              rcases List.mem_cons.mp hqd with rfl | h
              · exact hqk2 rfl
              · exact hqr h

/-- `remove_range` keeps the set well-formed for a non-inverted non-empty range. -/
theorem remove_range_WF {rs : RangeSet} {lower upper : Nat} {res : RangeSet × Nat}
    (hWF : WF rs.map) (hlu : lower < upper)
    (h : rs.remove_range lower upper = some res) : WF res.1.map := by
  simp only [RangeSet.remove_range] at h
  rw [if_neg (by omega)] at h
  have h' := Option.some.inj h
  rw [← h']
  show WF (applyPending rs.map (removeLoop lower upper (entriesLT rs.map upper).reverse).1)
  refine removeLoop_WF _ rs.map lower upper hWF ?_ ?_ ?_ ?_ hlu
  · exact List.pairwise_reverse.mpr (hWF.1.sublist (List.filter_sublist _))
  · intro p hp
    exact (List.mem_filter.mp (List.mem_reverse.mp hp)).1
  · intro p hp
    have := (List.mem_filter.mp (List.mem_reverse.mp hp)).2
    exact of_decide_eq_true this
  · intro q hq hqd
    by_contra hc
    push_neg at hc
    exact hqd (List.mem_reverse.mpr (List.mem_filter.mpr ⟨hq, decide_eq_true hc⟩))

/-- Every sequence of well-formed (`start < end`) operations preserves the
`RangeSet` invariant. -/
theorem applyRSOps_WF : ∀ (ops : List RSOp) (rs : RangeSet), WF rs.map →
    (∀ op ∈ ops, op.valid = true) →
    ∀ rs', applyRSOps ops rs = some rs' → WF rs'.map := by
  intro ops
  induction ops with
  | nil =>
    intro rs hWF _ rs' h
    exact (Option.some.inj h) ▸ hWF
  | cons op rest ih =>
    intro rs hWF hval rs' h
    simp only [applyRSOps] at h
    cases hop : applyRSOp rs op with
    | none =>
      rw [hop] at h
      exact Option.noConfusion h
    | some rs2 =>
      rw [hop] at h
      have hWF2 : WF rs2.map := by
        have hv := hval op (List.mem_cons_self _ _)
        cases op with
        | insert a b =>
          simp only [applyRSOp] at hop
          obtain ⟨r, heq, _, _, _, hWFr, _⟩ :=
            insert_range_spec rs a b hWF (of_decide_eq_true hv)
          rw [heq] at hop
          have h2 : r.2 = rs2 := by simpa using hop
          rw [← h2]
          exact hWFr
        | remove a b =>
          simp only [applyRSOp] at hop
          cases hrr : rs.remove_range a b with
          | none =>
            rw [hrr] at hop
            exact Option.noConfusion hop
          | some rr =>
            rw [hrr] at hop
            have h2 : rr.1 = rs2 := by simpa using hop
            rw [← h2]
            exact remove_range_WF hWF (of_decide_eq_true hv) hrr
      exact ih rs2 hWF2 (fun o ho => hval o (List.mem_cons_of_mem _ ho)) rs' h

/-- **C7.** Amended: after any finite sequence of insert_range and remove_range
operations whose ranges are well-formed (`start < end`), the stored ranges are
pairwise disjoint and non-adjacent (for stored `a`, `b` in order,
`a.start + a.length < b.start`) and every stored range is non-empty. The code
does NOT guarantee this for inverted (`start > end`) remove ranges, which slip
past the zero-length guard: see the counterexample. -/
theorem claim_C7_rangeset_invariant (cap : Nat) (ops : List RSOp)
    (hval : ∀ op ∈ ops, op.valid = true) (rs' : RangeSet)
    (h : applyRSOps ops (RangeSet.new cap) = some rs') :
    rs'.map.Pairwise (fun p q => p.1 + p.2 < q.1) ∧ ∀ p ∈ rs'.map, 0 < p.2 :=
  applyRSOps_WF ops (RangeSet.new cap) ⟨List.Pairwise.nil, by simp [RangeSet.new]⟩ hval rs' h

theorem claim_C7_rangeset_invariant_witness :
    ((∀ op ∈ ([RSOp.insert 0 10, RSOp.remove 2 5] : List RSOp), op.valid = true) ∧
      applyRSOps [RSOp.insert 0 10, RSOp.remove 2 5] (RangeSet.new 10) =
        some ⟨[(0, 2), (5, 5)], 10⟩) ∧
    (([(0, 2), (5, 5)] : List (Nat × Nat)).Pairwise (fun p q => p.1 + p.2 < q.1) ∧
      ∀ p ∈ ([(0, 2), (5, 5)] : List (Nat × Nat)), 0 < p.2) :=
  ⟨⟨by decide, by decide⟩,
    claim_C7_rangeset_invariant 10 [RSOp.insert 0 10, RSOp.remove 2 5]
      (by decide) ⟨[(0, 2), (5, 5)], 10⟩ (by decide)⟩

/-- **C7 counterexample.** `remove_range` with an inverted range
(`lower > upper`, here `8..3`) passes the `lower == upper` zero-length guard,
takes the split branch, and leaves two overlapping stored ranges
`[0, 8)` and `[3, 10)`: the claimed invariant fails for this sequence. -/
theorem claim_C7_counterexample :
    applyRSOps [RSOp.insert 0 10, RSOp.remove 8 3] (RangeSet.new 10) =
      some ⟨[(0, 8), (3, 7)], 10⟩ ∧
    ¬ (([(0, 8), (3, 7)] : List (Nat × Nat)).Pairwise (fun p q => p.1 + p.2 < q.1)) :=
  ⟨by decide, by decide⟩

end Kinesin
